import Mathlib

/-!
Verification development for the Raahi travel-planning backend's caching and
request-deduplication core (services/trip_service.py, services/ai_service.py,
services/gphotos_service.py).

Shallow embedding conventions:
- Python datetimes are modelled as abstract clock ticks (Nat); a cache entry is
  valid at tick `now` iff `now < expires_at`, matching the strict comparisons
  in the source.
- Python floats are modelled as exact rationals.
- hashlib.md5 is an external library primitive; it is modelled by a concrete
  deterministic stand-in digest.  Every theorem about keys depends only on the
  digest being a deterministic function of its input string, never on its value.
- Firebase (the durable tier) is modelled by an explicit map together with a
  flag `fbOk`; when the flag is false every Firebase primitive raises, which the
  embedding represents with `Except` results that the translated `try/except`
  blocks catch, exactly as in the source.
- The two single-flight coordinators (the `asyncio.Event` dictionary used by
  `calculate_cached_route` and `search_photos_by_trip`, and the `asyncio.Lock`
  used by `get_or_generate_daily_hotspot_pool`) are modelled as transition
  systems over explicit states, one atomic step per suspension-free block of
  the source, under Python's cooperative single-threaded scheduling model.
-/

namespace Raahi

/-! ### hashlib.md5 stand-in -/

/-- Modelled stand-in for the 128-bit `hashlib.md5` digest of a string.
The source uses md5 only as an opaque deterministic fingerprint; the theorems
below rely solely on determinism, so any fixed function works here. -/
def md5Digest (s : String) : Nat :=
  s.foldl (fun h c => (h * 131 + c.toNat) % (2 ^ 128)) 5381

/-- Modelled stand-in for `hashlib.md5(x).hexdigest()`. -/
def md5Hex (s : String) : String :=
  (Nat.toDigits 16 (md5Digest s)).asString

/-- Modelled stand-in for `int(hashlib.md5(x).hexdigest()[:8], 16)`: the first
eight hex digits of the digest, a number in `[0, 2^32)`. -/
def md5First8Nat (s : String) : Nat :=
  md5Digest s % (2 ^ 32)

/-! ### Cache Key Builder (trip_service.py `_get_cache_key`, `_get_route_cache_key`) -/

/-- Order on `(key, value)` string pairs: exactly Python's tuple comparison
used by `sorted(kwargs.items())`. -/
def pairLe (a b : String × String) : Prop :=
  a.1 < b.1 ∨ (a.1 = b.1 ∧ a.2 ≤ b.2)

instance : DecidableRel pairLe := fun a b =>
  inferInstanceAs (Decidable (_ ∨ _))

instance : IsTotal (String × String) pairLe where
  total a b := by
    rcases lt_trichotomy a.1 b.1 with h | h | h
    · exact Or.inl (Or.inl h)
    · rcases le_total a.2 b.2 with h2 | h2
      · exact Or.inl (Or.inr ⟨h, h2⟩)
      · exact Or.inr (Or.inr ⟨h.symm, h2⟩)
    · exact Or.inr (Or.inl h)

instance : IsTrans (String × String) pairLe where
  trans a b c hab hbc := by
    rcases hab with h1 | ⟨h1, h1'⟩ <;> rcases hbc with h2 | ⟨h2, h2'⟩
    · exact Or.inl (lt_trans h1 h2)
    · exact Or.inl (h2 ▸ h1)
    · exact Or.inl (h1 ▸ h2)
    · exact Or.inr ⟨h1.trans h2, le_trans h1' h2'⟩

instance : IsAntisymm (String × String) pairLe where
  antisymm a b hab hba := by
    rcases hab with h1 | ⟨h1, h1'⟩
    · rcases hba with h2 | ⟨h2, h2'⟩
      · exact absurd (lt_trans h1 h2) (lt_irrefl _)
      · exact absurd h1 (h2 ▸ lt_irrefl _)
    · rcases hba with h2 | ⟨h2, h2'⟩
      · exact absurd h2 (h1 ▸ lt_irrefl _)
      · exact Prod.ext h1 (le_antisymm h1' h2')

/-- Python's `sorted` on `kwargs.items()`: a stable sort by the tuple order.
Because `pairLe` is a total order, the result is independent of the sorting
algorithm; we use insertion sort so that it computes by `rfl`. -/
def pySorted (l : List (String × String)) : List (String × String) :=
  List.insertionSort pairLe l

/-- `trip_service._get_cache_key` with kwargs given as a list of
`(name, value)` pairs: sort, render `k=v` joined by `:` after the prefix,
then md5. -/
def getCacheKey (pfx : String) (kwargs : List (String × String)) : String :=
  md5Hex (pfx ++ ":" ++ String.intercalate ":"
    ((pySorted kwargs).map fun kv => kv.1 ++ "=" ++ kv.2))

/-- Python `s.lower()` (ASCII model), written over the character list so it
computes by reduction. -/
def pyToLower (s : String) : String :=
  ⟨s.data.map Char.toLower⟩

/-- Python `s.strip()`: drop whitespace from both ends. -/
def pyStrip (s : String) : String :=
  ⟨((s.data.dropWhile Char.isWhitespace).reverse.dropWhile
      Char.isWhitespace).reverse⟩

/-- Python `s.lower().strip()`. -/
def pyLowerStrip (s : String) : String :=
  pyStrip (pyToLower s)

/-- `trip_service._get_route_cache_key`. -/
def getRouteCacheKey (start_name end_name vehicle preference : String) : String :=
  getCacheKey "route"
    [("start", pyLowerStrip start_name),
     ("end", pyLowerStrip end_name),
     ("vehicle", pyToLower vehicle),
     ("preference", pyToLower preference)]

/-- `ai_service._get_user_hotspot_index`: md5 of `user_id + "_" + date_str`,
first 8 hex digits as an integer, modulo the pool size. -/
def getUserHotspotIndex (user_id date_str : String) (pool_size : Nat) : Nat :=
  md5First8Nat (user_id ++ "_" ++ date_str) % pool_size

/-! ### Two-Tier Route Cache Store
(trip_service.py `_get_cached_route`, `_cache_route`, `clear_route_cache`) -/

/-- A cache entry: payload plus absolute expiry tick. -/
structure RouteEntry (V : Type) where
  data : V
  expires_at : Nat
deriving DecidableEq

/-- The two tiers for route caching: the in-process `_route_cache` dict and
the Firebase records under `cache/routes/<key>`, each as a keyed map. -/
structure RouteCacheState (V : Type) where
  mem : String → Option (RouteEntry V)
  fb : String → Option (RouteEntry V)

/-- Point update of a keyed map. -/
def mapPut {α : Type} (m : String → Option α) (k : String) (v : α) :
    String → Option α :=
  fun q => if q = k then some v else m q

/-- Point deletion from a keyed map. -/
def mapDel {α : Type} (m : String → Option α) (k : String) :
    String → Option α :=
  fun q => if q = k then none else m q

/-- `db.reference(f'cache/routes/{key}').get()`: raises when Firebase is down. -/
def fbRead {V : Type} (fbOk : Bool) (fb : String → Option (RouteEntry V))
    (key : String) : Except String (Option (RouteEntry V)) :=
  if fbOk then .ok (fb key) else .error "Firebase unavailable"

/-- `cache_ref.delete()` for one key: raises when Firebase is down. -/
def fbDeleteKey {V : Type} (fbOk : Bool) (fb : String → Option (RouteEntry V))
    (key : String) : Except String (String → Option (RouteEntry V)) :=
  if fbOk then .ok (mapDel fb key) else .error "Firebase unavailable"

/-- `cache_ref.set(entry)`: raises when Firebase is down. -/
def fbWrite {V : Type} (fbOk : Bool) (fb : String → Option (RouteEntry V))
    (key : String) (e : RouteEntry V) :
    Except String (String → Option (RouteEntry V)) :=
  if fbOk then .ok (mapPut fb key e) else .error "Firebase unavailable"

/-- `db.reference('cache/routes').delete()`: raises when Firebase is down. -/
def fbDeleteAll (fbOk : Bool) : Except String Unit :=
  if fbOk then .ok () else .error "Firebase unavailable"

/-- The Firebase half of `_get_cached_route` (lines 43-64): the whole block is
wrapped in `try/except` so every Firebase failure degrades to a miss. -/
def fbPhase {V : Type} (now : Nat) (fbOk : Bool) (st : RouteCacheState V)
    (key : String) : Option V × RouteCacheState V :=
  match fbRead fbOk st.fb key with
  | .error _ => (none, st)
  | .ok none => (none, st)
  | .ok (some e) =>
    if now < e.expires_at then
      (some e.data, { st with mem := mapPut st.mem key e })
    else
      match fbDeleteKey fbOk st.fb key with
      | .error _ => (none, st)
      | .ok fb2 => (none, { st with fb := fb2 })

/-- `trip_service._get_cached_route`: memory tier first (delete if expired),
then the Firebase tier. Returns the value found (if any) and the updated
tiers. -/
def getCachedRoute {V : Type} (now : Nat) (fbOk : Bool) (st : RouteCacheState V)
    (key : String) : Option V × RouteCacheState V :=
  match st.mem key with
  | some e =>
    if now < e.expires_at then (some e.data, st)
    else fbPhase now fbOk { st with mem := mapDel st.mem key } key
  | none => fbPhase now fbOk st key

/-- One hour of clock ticks (the tick is one second). -/
def hoursToTicks (h : Nat) : Nat := h * 3600

/-- `trip_service._cache_route`: write the memory tier, then attempt the
Firebase write inside `try/except` (failure logged and swallowed). -/
def cacheRoute {V : Type} (now : Nat) (fbOk : Bool) (st : RouteCacheState V)
    (key : String) (dta : V) (hours : Nat) : RouteCacheState V :=
  let e : RouteEntry V := ⟨dta, now + hoursToTicks hours⟩
  let st1 : RouteCacheState V := { st with mem := mapPut st.mem key e }
  match fbWrite fbOk st1.fb key e with
  | .error _ => st1
  | .ok fb2 => { st1 with fb := fb2 }

/-- `trip_service.clear_route_cache`: clear the in-memory dict, then try to
delete the Firebase record; a Firebase failure yields the error dict (the
returned Bool is true for the success message, false for the error dict) but
never an exception. -/
def clearRouteCache {V : Type} (fbOk : Bool) (st : RouteCacheState V) :
    RouteCacheState V × Bool :=
  let st1 : RouteCacheState V := { st with mem := fun _ => none }
  match fbDeleteAll fbOk with
  | .error _ => (st1, false)
  | .ok _ => ({ st1 with fb := fun _ => none }, true)

/-! ### Intelligent route calculation
(trip_service.py `calculate_intelligent_route`, `create_estimated_route`).
The haversine distance `calculate_distance` is real-valued trigonometry over
floats; the claims are phrased directly in terms of the resulting distance
`d`, so `d` is a parameter here. -/

/-- A location as used by the route calculator (schemas.trip_schema.Location). -/
structure Loc where
  name : String
  lat : ℚ
  lng : ℚ

/-- The fields of a provider (OpenRouteService) route actually read by
`calculate_intelligent_route`. -/
structure PRoute where
  total_distance_km : ℚ
  estimated_time_hours : ℚ
deriving DecidableEq

/-- Per-vehicle speed table of `create_estimated_route`. -/
structure VehicleSpeeds where
  highway : ℚ
  city : ℚ
  mountain : ℚ
deriving DecidableEq

/-- `speed_map.get(vehicle, speed_map['car'])`. -/
def speedMap (vehicle : String) : VehicleSpeeds :=
  if vehicle = "car" then ⟨80, 40, 30⟩
  else if vehicle = "bike" then ⟨70, 35, 25⟩
  else ⟨80, 40, 30⟩

/-- Python `round` to an integer: round-half-to-even. -/
def pyRoundInt (q : ℚ) : ℤ :=
  let f := ⌊q⌋
  let r := q - (f : ℚ)
  if r < 1 / 2 then f
  else if 1 / 2 < r then f + 1
  else if 2 ∣ f then f else f + 1

/-- Python `round(q, 1)`. -/
def pyRound1 (q : ℚ) : ℚ :=
  (pyRoundInt (10 * q) : ℚ) / 10

/-- `trip_service.create_estimated_route` (async but suspension-free). -/
structure EstRoute where
  route_id : Nat
  route_type : String
  total_distance_km : ℚ
  estimated_time_hours : ℚ
  geometry : List (ℚ × ℚ)
  avg_speed_kmh : ℚ
deriving DecidableEq

/-- Distance band selection and estimation of `create_estimated_route`. -/
def createEstimatedRoute (s e : Loc) (vehicle : String) (d : ℚ) : EstRoute :=
  let speeds := speedMap vehicle
  let avg : ℚ :=
    if 500 < d then speeds.highway * (8 / 10)
    else if 200 < d then speeds.highway * (7 / 10)
    else speeds.city * (12 / 10)
  let rtype : String :=
    if 500 < d then "Long-distance highway route"
    else if 200 < d then "Inter-city route"
    else "Regional route"
  { route_id := 0
    route_type := rtype
    total_distance_km := pyRound1 d
    estimated_time_hours := pyRound1 (d / avg)
    geometry := [(s.lng, s.lat), (e.lng, e.lat)]
    avg_speed_kmh := pyRound1 avg }

/-- An element of the `routes` list of a route result: either a provider route
or the single estimated stub route. -/
inductive RouteItem where
  | provider (r : PRoute)
  | estimated (e : EstRoute)
deriving DecidableEq

/-- The route-result dict shape shared by the three outcomes of
`calculate_intelligent_route`. -/
structure RouteInfo where
  status : String
  method : String
  total_distance_km : ℚ
  estimated_time_hours : ℚ
  distance_km : ℚ
  routes : List RouteItem
  error : Option String
  note : Option String
deriving DecidableEq

/-- The `status: success` result built after a successful provider call
(`main_route = routes[0] if routes else None`). -/
def successInfo (d : ℚ) (routes : List PRoute) : RouteInfo :=
  match routes with
  | [] =>
    { status := "success", method := "openrouteservice"
      total_distance_km := d, estimated_time_hours := d / 50
      distance_km := d, routes := [], error := none, note := none }
  | main :: _ =>
    { status := "success", method := "openrouteservice"
      total_distance_km := main.total_distance_km
      estimated_time_hours := main.estimated_time_hours
      distance_km := d, routes := routes.map RouteItem.provider
      error := none, note := none }

/-- The `status: estimated` result (step 3 of `calculate_intelligent_route`). -/
def estimatedInfo (s e : Loc) (vehicle : String) (d : ℚ) : RouteInfo :=
  let est := createEstimatedRoute s e vehicle d
  { status := "estimated", method := "intelligent_estimation"
    total_distance_km := pyRound1 d
    estimated_time_hours := est.estimated_time_hours
    distance_km := d, routes := [RouteItem.estimated est]
    error := none
    note := some "Route estimated due to long distance. Actual route may vary." }

/-- The `status: basic` result of the outer `except` fallback. -/
def basicInfo (d : ℚ) (msg : String) : RouteInfo :=
  { status := "basic", method := "fallback"
    total_distance_km := pyRound1 d
    estimated_time_hours := pyRound1 (d / 50)
    distance_km := d, routes := [], error := some msg
    note := some "Unable to calculate detailed route. Basic trip information saved." }

/-- `trip_service.calculate_intelligent_route`, with the haversine distance
`d` and the outcome of `calculate_route_with_osm` (the routing provider)
passed in. The returned Bool records whether the provider was invoked.
A provider failure below the 120 band escapes to the outer `except` and
becomes the basic result; in the 120-300 band the inner `except` falls
through to estimation; above 300 the provider is never called. -/
def calculateIntelligentRoute (s e : Loc) (vehicle : String) (d : ℚ)
    (provider : Except String (List PRoute)) : RouteInfo × Bool :=
  if d ≤ 120 then
    match provider with
    | .ok routes => (successInfo d routes, true)
    | .error msg => (basicInfo d msg, true)
  else if d ≤ 300 then
    match provider with
    | .ok routes => (successInfo d routes, true)
    | .error _ => (estimatedInfo s e vehicle d, true)
  else
    (estimatedInfo s e vehicle d, false)

/-- The caching condition of `calculate_cached_route` line 248:
`route_result.get('status') in ['success', 'estimated']`. -/
def shouldCacheRoute (r : RouteInfo) : Bool :=
  r.status = "success" || r.status = "estimated"

/-- Sequential (single-caller, no in-flight lock) body of
`calculate_cached_route` lines 233-256: check the two-tier cache; on a miss
run the computation, cache it only when `shouldCacheRoute`, and return it.
The Bool records whether the route computation was invoked. -/
def calcCachedRouteSeq (now : Nat) (fbOk : Bool) (st : RouteCacheState RouteInfo)
    (key : String) (compute : RouteInfo) :
    RouteCacheState RouteInfo × RouteInfo × Bool :=
  match getCachedRoute now fbOk st key with
  | (some cached, st1) => (st1, cached, false)
  | (none, st1) =>
    if shouldCacheRoute compute then
      (cacheRoute now fbOk st1 key compute 24, compute, true)
    else (st1, compute, true)

/-! ### Daily hotspot pool cache state (ai_service.py) -/

/-- `ai_service._get_cache_key`. -/
def hotspotCacheKey (date_str : String) : String :=
  "hotspot_pool_" ++ date_str

/-- In-memory hotspot pool cache (`_daily_hotspot_pool_cache` and
`_cache_timestamps`, keyed by cache key) together with the Firebase records
under `hotspot_pools/<date>` (keyed by date). -/
structure HotspotState (P : Type) where
  poolCache : String → Option P
  timestamps : String → Option Nat
  fb : String → Option P

/-- `ai_service.clear_hotspot_cache`: with a date, delete that date's key from
the two in-memory dicts; with none, clear both dicts entirely. The function
never touches Firebase. -/
def clearHotspotCache {P : Type} (date_str : Option String)
    (st : HotspotState P) : HotspotState P :=
  match date_str with
  | some d =>
    let k := hotspotCacheKey d
    { st with poolCache := mapDel st.poolCache k
              timestamps := mapDel st.timestamps k }
  | none =>
    { st with poolCache := fun _ => none
              timestamps := fun _ => none }

/-! ### Single-flight coordinator, event-based
(trip_service.calculate_cached_route and gphotos_service.search_photos_by_trip).

Cooperative-scheduling model for K concurrent callers of one cache key.
One atomic step per suspension-free block of the source.  The `asyncio.Event`
dictionary entry is `dict : Option Nat` holding the identity of the currently
registered event; event identities are the value of the invocation counter at
registration time, and `eventSet` records which event objects have been set
(a waiter keeps its reference to the event it started waiting on even after
the dictionary entry is overwritten or deleted).  `count` counts invocations
of the expensive compute function.  The compute is deterministic: success
produces `v` (a cacheable result), failure models an exception (photo search)
or a non-cacheable `basic` result (route calculation).  `useFb` selects
whether a successful computation also writes the durable tier
(`_cache_route` does, the photo cache is memory-only).  No time passes during
an episode, so TTL expiry never fires; under that assumption the two call
sites have identical atomic blocks. -/

namespace SF

/-- Program counter of one caller. -/
inductive Pc (V : Type) where
  | start
  | waiting (ev : Nat)
  | computing
  | done (w : V)
  | failed
deriving DecidableEq

/-- Global state: the key's fast-tier entry, its durable-tier entry, the
lock-dictionary entry (identity of the registered event), the compute-call
counter, the set-status of every event ever created, and each caller's pc. -/
structure St (K : Nat) (V : Type) where
  mem : Option V
  fb : Option V
  dict : Option Nat
  count : Nat
  eventSet : Nat → Bool
  pcs : Fin K → Pc V

/-- Initial state: no valid cache entry in either tier, no registration,
all callers about to invoke the policy. -/
def init (K : Nat) (V : Type) : St K V :=
  { mem := none, fb := none, dict := none, count := 0
    eventSet := fun _ => false, pcs := fun _ => Pc.start }

/-- Mark event `g` as set. -/
def setEvent (f : Nat → Bool) (g : Nat) : Nat → Bool :=
  fun x => if x = g then true else f x

/-- Caller `i` starts waiting on the registered event `g`. -/
def waitResult {K : Nat} {V : Type} (s : St K V) (i : Fin K) (g : Nat) : St K V :=
  { s with pcs := Function.update s.pcs i (Pc.waiting g) }

/-- Caller `i` returns the fast-tier value `w`. -/
def doneResult {K : Nat} {V : Type} (s : St K V) (i : Fin K) (w : V) : St K V :=
  { s with pcs := Function.update s.pcs i (Pc.done w) }

/-- Caller `i` finds `w` in the durable tier, populates the fast tier and
returns it (lines 48-57 of trip_service). -/
def fbHitResult {K : Nat} {V : Type} (s : St K V) (i : Fin K) (w : V) : St K V :=
  { s with mem := some w, pcs := Function.update s.pcs i (Pc.done w) }

/-- Caller `i` registers a fresh event in the lock dictionary (unconditional
assignment in the source, so any previous entry is overwritten) and begins
the compute; the counter value names the new event. -/
def registerResult {K : Nat} {V : Type} (s : St K V) (i : Fin K) : St K V :=
  { s with dict := some s.count, count := s.count + 1
           pcs := Function.update s.pcs i Pc.computing }

/-- Owner `i` finishes successfully while the dictionary holds event `g`:
cache the result, then the `finally` block sets the dictionary's current
event and deletes the entry. -/
def finishOkResult {K : Nat} {V : Type} (useFb : Bool) (v : V) (s : St K V)
    (i : Fin K) (g : Nat) : St K V :=
  { s with mem := some v, fb := cond useFb (some v) s.fb
           dict := none, eventSet := setEvent s.eventSet g
           pcs := Function.update s.pcs i (Pc.done v) }

/-- Owner `i` finishes successfully but the dictionary entry is gone (another
finisher deleted it): the result is cached, but the `finally` block's
`_cache_locks[key].set()` raises KeyError, so the caller fails. -/
def finishOkOrphanResult {K : Nat} {V : Type} (useFb : Bool) (v : V)
    (s : St K V) (i : Fin K) : St K V :=
  { s with mem := some v, fb := cond useFb (some v) s.fb
           pcs := Function.update s.pcs i Pc.failed }

/-- Owner `i`'s compute fails while the dictionary holds event `g`: nothing
is cached; the `finally` block sets the event and deletes the entry; the
failure propagates to the caller. -/
def finishFailResult {K : Nat} {V : Type} (s : St K V) (i : Fin K) (g : Nat) :
    St K V :=
  { s with dict := none, eventSet := setEvent s.eventSet g
           pcs := Function.update s.pcs i Pc.failed }

/-- Owner `i`'s compute fails and the dictionary entry is gone: nothing is
cached and the `finally` block raises KeyError. -/
def finishFailOrphanResult {K : Nat} {V : Type} (s : St K V) (i : Fin K) :
    St K V :=
  { s with pcs := Function.update s.pcs i Pc.failed }

/-- One atomic step of caller `i`.  `allowFail` gates the compute-failure
transitions (set it to false to model runs in which the compute succeeds). -/
inductive Step {K : Nat} {V : Type} (useFb allowFail : Bool) (v : V)
    (i : Fin K) : St K V → St K V → Prop where
  | startWait (s : St K V) (g : Nat) (hpc : s.pcs i = Pc.start)
      (hd : s.dict = some g) :
      Step useFb allowFail v i s (waitResult s i g)
  | startMemHit (s : St K V) (w : V) (hpc : s.pcs i = Pc.start)
      (hd : s.dict = none) (hm : s.mem = some w) :
      Step useFb allowFail v i s (doneResult s i w)
  | startFbHit (s : St K V) (w : V) (hpc : s.pcs i = Pc.start)
      (hd : s.dict = none) (hm : s.mem = none) (hf : s.fb = some w) :
      Step useFb allowFail v i s (fbHitResult s i w)
  | startRegister (s : St K V) (hpc : s.pcs i = Pc.start)
      (hd : s.dict = none) (hm : s.mem = none) (hf : s.fb = none) :
      Step useFb allowFail v i s (registerResult s i)
  | wakeMemHit (s : St K V) (g : Nat) (w : V) (hpc : s.pcs i = Pc.waiting g)
      (hev : s.eventSet g = true) (hm : s.mem = some w) :
      Step useFb allowFail v i s (doneResult s i w)
  | wakeFbHit (s : St K V) (g : Nat) (w : V) (hpc : s.pcs i = Pc.waiting g)
      (hev : s.eventSet g = true) (hm : s.mem = none) (hf : s.fb = some w) :
      Step useFb allowFail v i s (fbHitResult s i w)
  | wakeRegister (s : St K V) (g : Nat) (hpc : s.pcs i = Pc.waiting g)
      (hev : s.eventSet g = true) (hm : s.mem = none) (hf : s.fb = none) :
      Step useFb allowFail v i s (registerResult s i)
  | finishOk (s : St K V) (g : Nat) (hpc : s.pcs i = Pc.computing)
      (hd : s.dict = some g) :
      Step useFb allowFail v i s (finishOkResult useFb v s i g)
  | finishOkOrphan (s : St K V) (hpc : s.pcs i = Pc.computing)
      (hd : s.dict = none) :
      Step useFb allowFail v i s (finishOkOrphanResult useFb v s i)
  | finishFail (s : St K V) (g : Nat) (hpc : s.pcs i = Pc.computing)
      (hd : s.dict = some g) (hall : allowFail = true) :
      Step useFb allowFail v i s (finishFailResult s i g)
  | finishFailOrphan (s : St K V) (hpc : s.pcs i = Pc.computing)
      (hd : s.dict = none) (hall : allowFail = true) :
      Step useFb allowFail v i s (finishFailOrphanResult s i)

/-- Reachability under interleaved steps of the K callers. -/
inductive Reach {K : Nat} {V : Type} (useFb allowFail : Bool) (v : V) :
    St K V → St K V → Prop where
  | refl (s : St K V) : Reach useFb allowFail v s s
  | tail (a b c : St K V) (i : Fin K) (hr : Reach useFb allowFail v a b)
      (hs : Step useFb allowFail v i b c) : Reach useFb allowFail v a c

/-- Inductive invariant of failure-free runs: at most one registration ever
happens, everything cached or returned is the compute result `v`, and while
the owner is computing nothing is cached. -/
structure InvS {K : Nat} {V : Type} (useFb : Bool) (v : V) (s : St K V) :
    Prop where
  mem_v : ∀ w, s.mem = some w → w = v
  fb_v : ∀ w, s.fb = some w → w = v
  done_v : ∀ i w, s.pcs i = Pc.done w → w = v
  no_fail : ∀ i, s.pcs i ≠ Pc.failed
  ev_mem : ∀ g, s.eventSet g = true → s.mem = some v
  mem_count : ∀ w, s.mem = some w → s.count = 1
  fb_count : ∀ w, s.fb = some w → s.count = 1
  comp_state : ∀ i, s.pcs i = Pc.computing →
    s.mem = none ∧ s.fb = none ∧ s.dict = some 0 ∧ s.count = 1
  comp_unique : ∀ i j, s.pcs i = Pc.computing → s.pcs j = Pc.computing → i = j
  count_one : s.count = 1 → (∃ i, s.pcs i = Pc.computing) ∨ s.mem = some v
  count_le : s.count ≤ 1
  done_count : ∀ i w, s.pcs i = Pc.done w → s.count = 1

end SF

/-! ### Single-flight via asyncio.Lock
(ai_service.get_or_generate_daily_hotspot_pool).

Same modelling conventions as `SF`.  The lock is a proper mutex: a releasing
owner lets one blocked caller acquire (the model allows any blocked caller,
a superset of asyncio's FIFO order).  The double-check of the memory cache
and the Firebase read happen inside the same suspension-free block as the
acquisition, because `firebase_admin`'s reads are synchronous.  A successful
generation also writes the durable record (done inside
`generate_daily_hotspot_pool` before it returns). -/

namespace PL

/-- Program counter of one caller. -/
inductive Pc (V : Type) where
  | start
  | blocked
  | computing
  | done (w : V)
  | failed
deriving DecidableEq

/-- Global state for one date key: memory pool cache, Firebase pool record,
the generation lock, the generation counter and each caller's pc. -/
structure St (K : Nat) (V : Type) where
  mem : Option V
  fb : Option V
  locked : Bool
  count : Nat
  pcs : Fin K → Pc V

/-- Initial state: no cached pool anywhere, lock free, all callers arriving. -/
def init (K : Nat) (V : Type) : St K V :=
  { mem := none, fb := none, locked := false, count := 0
    pcs := fun _ => Pc.start }

/-- Caller `i` returns the cached pool `w`. -/
def doneResult {K : Nat} {V : Type} (s : St K V) (i : Fin K) (w : V) : St K V :=
  { s with pcs := Function.update s.pcs i (Pc.done w) }

/-- Caller `i` acquires the lock, misses the memory cache, finds the pool in
Firebase, caches it, returns it and releases (net lock state unchanged). -/
def fbHitResult {K : Nat} {V : Type} (s : St K V) (i : Fin K) (w : V) : St K V :=
  { s with mem := some w, pcs := Function.update s.pcs i (Pc.done w) }

/-- Caller `i` suspends on the held lock. -/
def blockedResult {K : Nat} {V : Type} (s : St K V) (i : Fin K) : St K V :=
  { s with pcs := Function.update s.pcs i Pc.blocked }

/-- Caller `i` acquires the lock, misses both tiers and begins generation. -/
def registerResult {K : Nat} {V : Type} (s : St K V) (i : Fin K) : St K V :=
  { s with locked := true, count := s.count + 1
           pcs := Function.update s.pcs i Pc.computing }

/-- Owner `i` finishes generation: the pool is saved to Firebase and to the
memory cache, the lock is released and the pool returned. -/
def finishOkResult {K : Nat} {V : Type} (v : V) (s : St K V) (i : Fin K) :
    St K V :=
  { s with mem := some v, fb := some v, locked := false
           pcs := Function.update s.pcs i (Pc.done v) }

/-- Owner `i`'s generation raises: nothing is cached, the `async with` block
releases the lock, and the error propagates. -/
def finishFailResult {K : Nat} {V : Type} (s : St K V) (i : Fin K) : St K V :=
  { s with locked := false, pcs := Function.update s.pcs i Pc.failed }

/-- One atomic step of caller `i`. -/
inductive Step {K : Nat} {V : Type} (allowFail : Bool) (v : V) (i : Fin K) :
    St K V → St K V → Prop where
  | startHit (s : St K V) (w : V) (hpc : s.pcs i = Pc.start)
      (hm : s.mem = some w) :
      Step allowFail v i s (doneResult s i w)
  | startFbHit (s : St K V) (w : V) (hpc : s.pcs i = Pc.start)
      (hm : s.mem = none) (hl : s.locked = false) (hf : s.fb = some w) :
      Step allowFail v i s (fbHitResult s i w)
  | startRegister (s : St K V) (hpc : s.pcs i = Pc.start)
      (hm : s.mem = none) (hl : s.locked = false) (hf : s.fb = none) :
      Step allowFail v i s (registerResult s i)
  | startBlocked (s : St K V) (hpc : s.pcs i = Pc.start)
      (hm : s.mem = none) (hl : s.locked = true) :
      Step allowFail v i s (blockedResult s i)
  | blockedHit (s : St K V) (w : V) (hpc : s.pcs i = Pc.blocked)
      (hl : s.locked = false) (hm : s.mem = some w) :
      Step allowFail v i s (doneResult s i w)
  | blockedFbHit (s : St K V) (w : V) (hpc : s.pcs i = Pc.blocked)
      (hl : s.locked = false) (hm : s.mem = none) (hf : s.fb = some w) :
      Step allowFail v i s (fbHitResult s i w)
  | blockedRegister (s : St K V) (hpc : s.pcs i = Pc.blocked)
      (hl : s.locked = false) (hm : s.mem = none) (hf : s.fb = none) :
      Step allowFail v i s (registerResult s i)
  | finishOk (s : St K V) (hpc : s.pcs i = Pc.computing) :
      Step allowFail v i s (finishOkResult v s i)
  | finishFail (s : St K V) (hpc : s.pcs i = Pc.computing)
      (hall : allowFail = true) :
      Step allowFail v i s (finishFailResult s i)

/-- Reachability under interleaved steps of the K callers. -/
inductive Reach {K : Nat} {V : Type} (allowFail : Bool) (v : V) :
    St K V → St K V → Prop where
  | refl (s : St K V) : Reach allowFail v s s
  | tail (a b c : St K V) (i : Fin K) (hr : Reach allowFail v a b)
      (hs : Step allowFail v i b c) : Reach allowFail v a c

/-- Inductive invariant of failure-free runs of the lock-based coordinator. -/
structure InvP {K : Nat} {V : Type} (v : V) (s : St K V) : Prop where
  mem_v : ∀ w, s.mem = some w → w = v
  fb_v : ∀ w, s.fb = some w → w = v
  done_v : ∀ i w, s.pcs i = Pc.done w → w = v
  no_fail : ∀ i, s.pcs i ≠ Pc.failed
  mem_count : ∀ w, s.mem = some w → s.count = 1
  fb_count : ∀ w, s.fb = some w → s.count = 1
  comp_state : ∀ i, s.pcs i = Pc.computing →
    s.locked = true ∧ s.mem = none ∧ s.fb = none ∧ s.count = 1
  comp_unique : ∀ i j, s.pcs i = Pc.computing → s.pcs j = Pc.computing → i = j
  count_one : s.count = 1 → (∃ i, s.pcs i = Pc.computing) ∨ s.mem = some v
  count_le : s.count ≤ 1
  done_count : ∀ i w, s.pcs i = Pc.done w → s.count = 1

end PL

/-! ### Concrete executions used below -/

/-- Two-caller success run of the event-based coordinator, durable tier on:
caller 0 registers and computes, caller 1 waits. -/
def sfW1 : SF.St 2 Nat := SF.registerResult (SF.init 2 Nat) 0

/-- Caller 1 starts waiting on event 0. -/
def sfW2 : SF.St 2 Nat := SF.waitResult sfW1 1 0

/-- Caller 0 finishes successfully with value 7. -/
def sfW3 : SF.St 2 Nat := SF.finishOkResult true 7 sfW2 0 0

/-- Caller 1 wakes and hits the fast tier. -/
def sfW4 : SF.St 2 Nat := SF.doneResult sfW3 1 7

/-- Two-caller success run of the lock-based coordinator. -/
def plW1 : PL.St 2 Nat := PL.registerResult (PL.init 2 Nat) 0

/-- Caller 1 blocks on the held lock. -/
def plW2 : PL.St 2 Nat := PL.blockedResult plW1 1

/-- Caller 0 finishes generation with pool value 7. -/
def plW3 : PL.St 2 Nat := PL.finishOkResult 7 plW2 0

/-- Caller 1 acquires and hits the memory cache. -/
def plW4 : PL.St 2 Nat := PL.doneResult plW3 1 7

/-- Caller 0 registered and computing while caller 1 has not arrived yet
(used to witness the failure analysis). -/
def sfF1 : SF.St 2 Nat := SF.registerResult (SF.init 2 Nat) 0

/-- Three-caller run exhibiting the registration-overwrite race: caller 0
registers (event 0). -/
def sfC1 : SF.St 3 Nat := SF.registerResult (SF.init 3 Nat) 0

/-- Callers 1 and 2 start waiting on event 0. -/
def sfC2 : SF.St 3 Nat := SF.waitResult sfC1 1 0

/-- Caller 2 waits as well. -/
def sfC3 : SF.St 3 Nat := SF.waitResult sfC2 2 0

/-- Caller 0's compute fails: event 0 is set, the registration is removed. -/
def sfC4 : SF.St 3 Nat := SF.finishFailResult sfC3 0 0

/-- Caller 1 wakes, misses the cache and re-registers (event 1). -/
def sfC5 : SF.St 3 Nat := SF.registerResult sfC4 1

/-- Caller 2 wakes, misses the cache and re-registers too, overwriting
caller 1's dictionary entry with event 2 (the source assigns the dictionary
slot unconditionally after the wait). -/
def sfC6 : SF.St 3 Nat := SF.registerResult sfC5 2

/-- Caller 1 finishes successfully with value 7: the result is cached and
caller 1's `finally` sets and deletes the dictionary's current entry, which
is caller 2's event. -/
def sfC7 : SF.St 3 Nat := SF.finishOkResult false 7 sfC6 1 2

/-! ## Theorems -/

/-- If `f i` and `f j` show different values, the indices differ. -/
theorem ne_of_app_ne {α β : Type} {f : α → β} {i j : α} {p q : β}
    (hi : f i = p) (hj : f j = q) (hpq : q ≠ p) : j ≠ i :=
  fun e => hpq ((e ▸ hj).symm.trans hi)

/-- Reading a point update of a pc map. -/
theorem update_pc_eq {K : Nat} {β : Type} {f : Fin K → β} {i j : Fin K}
    {p q : β} (hj : Function.update f i p j = q) :
    (j = i ∧ p = q) ∨ (j ≠ i ∧ f j = q) := by
  rcases eq_or_ne j i with rfl | hne
  · rw [Function.update_same] at hj
    exact Or.inl ⟨rfl, hj⟩
  · rw [Function.update_noteq hne] at hj
    exact Or.inr ⟨hne, hj⟩

namespace SF

/-- The initial state satisfies the failure-free invariant. -/
theorem invS_init {K : Nat} {V : Type} (useFb : Bool) (v : V) :
    InvS useFb v (init K V) where
  mem_v := fun _ h => Option.noConfusion h
  fb_v := fun _ h => Option.noConfusion h
  done_v := fun _ _ h => Pc.noConfusion h
  no_fail := fun _ h => Pc.noConfusion h
  ev_mem := fun _ h => Bool.noConfusion h
  mem_count := fun _ h => Option.noConfusion h
  fb_count := fun _ h => Option.noConfusion h
  comp_state := fun _ h => Pc.noConfusion h
  comp_unique := fun _ _ h _ => Pc.noConfusion h
  count_one := fun hc => by simp [init] at hc
  count_le := Nat.zero_le _
  done_count := fun _ _ h => Pc.noConfusion h

/-- One failure-free step preserves the invariant. -/
theorem invS_step {K : Nat} {V : Type} {useFb : Bool} {v : V} {i : Fin K}
    {s t : St K V} (h : InvS useFb v s) (hs : Step useFb false v i s t) :
    InvS useFb v t := by
  cases hs with
  | startWait g hpc hd =>
    refine ⟨h.mem_v, h.fb_v, ?_, ?_, h.ev_mem, h.mem_count, h.fb_count,
      ?_, ?_, ?_, h.count_le, ?_⟩
    · intro j w hj
      rcases update_pc_eq hj with ⟨-, hpq⟩ | ⟨-, hj2⟩
      · exact Pc.noConfusion hpq
      · exact h.done_v j w hj2
    · intro j hj
      rcases update_pc_eq hj with ⟨-, hpq⟩ | ⟨-, hj2⟩
      · exact Pc.noConfusion hpq
      · exact h.no_fail j hj2
    · intro j hj
      rcases update_pc_eq hj with ⟨-, hpq⟩ | ⟨-, hj2⟩
      · exact Pc.noConfusion hpq
      · exact h.comp_state j hj2
    · intro a b ha hb
      rcases update_pc_eq ha with ⟨-, hpq⟩ | ⟨-, ha2⟩
      · exact Pc.noConfusion hpq
      rcases update_pc_eq hb with ⟨-, hpq⟩ | ⟨-, hb2⟩
      · exact Pc.noConfusion hpq
      exact h.comp_unique a b ha2 hb2
    · intro hc
      rcases h.count_one hc with ⟨j, hj⟩ | hmem
      · have hne : j ≠ i := ne_of_app_ne hpc hj nofun
        exact Or.inl ⟨j, (Function.update_noteq hne _ _).trans hj⟩
      · exact Or.inr hmem
    · intro j w hj
      rcases update_pc_eq hj with ⟨-, hpq⟩ | ⟨-, hj2⟩
      · exact Pc.noConfusion hpq
      · exact h.done_count j w hj2
  | startMemHit w hpc hd hm =>
    have hwv : w = v := h.mem_v w hm
    have hc1 : s.count = 1 := h.mem_count w hm
    refine ⟨h.mem_v, h.fb_v, ?_, ?_, h.ev_mem, h.mem_count, h.fb_count,
      ?_, ?_, ?_, h.count_le, ?_⟩
    · intro j w2 hj
      rcases update_pc_eq hj with ⟨-, hpq⟩ | ⟨-, hj2⟩
      · rw [← Pc.done.inj hpq]; exact hwv
      · exact h.done_v j w2 hj2
    · intro j hj
      rcases update_pc_eq hj with ⟨-, hpq⟩ | ⟨-, hj2⟩
      · exact Pc.noConfusion hpq
      · exact h.no_fail j hj2
    · intro j hj
      rcases update_pc_eq hj with ⟨-, hpq⟩ | ⟨-, hj2⟩
      · exact Pc.noConfusion hpq
      · exact h.comp_state j hj2
    · intro a b ha hb
      rcases update_pc_eq ha with ⟨-, hpq⟩ | ⟨-, ha2⟩
      · exact Pc.noConfusion hpq
      rcases update_pc_eq hb with ⟨-, hpq⟩ | ⟨-, hb2⟩
      · exact Pc.noConfusion hpq
      exact h.comp_unique a b ha2 hb2
    · intro hc
      rcases h.count_one hc with ⟨j, hj⟩ | hmem
      · have hne : j ≠ i := ne_of_app_ne hpc hj nofun
        exact Or.inl ⟨j, (Function.update_noteq hne _ _).trans hj⟩
      · exact Or.inr hmem
    · intro j w2 hj
      rcases update_pc_eq hj with ⟨-, hpq⟩ | ⟨-, hj2⟩
      · exact hc1
      · exact h.done_count j w2 hj2
  | startFbHit w hpc hd hm hf =>
    have hwv : w = v := h.fb_v w hf
    have hc1 : s.count = 1 := h.fb_count w hf
    refine ⟨?_, h.fb_v, ?_, ?_, ?_, ?_, h.fb_count, ?_, ?_, ?_, h.count_le, ?_⟩
    · intro w2 hw2
      rw [← Option.some_inj.mp hw2]; exact hwv
    · intro j w2 hj
      rcases update_pc_eq hj with ⟨-, hpq⟩ | ⟨-, hj2⟩
      · rw [← Pc.done.inj hpq]; exact hwv
      · exact h.done_v j w2 hj2
    · intro j hj
      rcases update_pc_eq hj with ⟨-, hpq⟩ | ⟨-, hj2⟩
      · exact Pc.noConfusion hpq
      · exact h.no_fail j hj2
    · intro g hg
      show some w = some v
      rw [hwv]
    · intro w2 _
      exact hc1
    · intro j hj
      rcases update_pc_eq hj with ⟨-, hpq⟩ | ⟨-, hj2⟩
      · exact Pc.noConfusion hpq
      · obtain ⟨-, hfb, -, -⟩ := h.comp_state j hj2
        rw [hf] at hfb
        exact Option.noConfusion hfb
    · intro a b ha hb
      rcases update_pc_eq ha with ⟨-, hpq⟩ | ⟨-, ha2⟩
      · exact Pc.noConfusion hpq
      rcases update_pc_eq hb with ⟨-, hpq⟩ | ⟨-, hb2⟩
      · exact Pc.noConfusion hpq
      exact h.comp_unique a b ha2 hb2
    · intro hc
      refine Or.inr ?_
      show some w = some v
      rw [hwv]
    · intro j w2 hj
      rcases update_pc_eq hj with ⟨-, hpq⟩ | ⟨-, hj2⟩
      · exact hc1
      · exact h.done_count j w2 hj2
  | startRegister hpc hd hm hf =>
    have hc0 : s.count = 0 := by
      rcases Nat.le_one_iff_eq_zero_or_eq_one.mp h.count_le with h0 | h1
      · exact h0
      · rcases h.count_one h1 with ⟨j, hj⟩ | hmem
        · obtain ⟨-, -, hdj, -⟩ := h.comp_state j hj
          rw [hd] at hdj
          exact Option.noConfusion hdj
        · rw [hm] at hmem
          exact Option.noConfusion hmem
    refine ⟨h.mem_v, h.fb_v, ?_, ?_, ?_, ?_, ?_, ?_, ?_, ?_, ?_, ?_⟩
    · intro j w hj
      rcases update_pc_eq hj with ⟨-, hpq⟩ | ⟨-, hj2⟩
      · exact Pc.noConfusion hpq
      · exact h.done_v j w hj2
    · intro j hj
      rcases update_pc_eq hj with ⟨-, hpq⟩ | ⟨-, hj2⟩
      · exact Pc.noConfusion hpq
      · exact h.no_fail j hj2
    · intro g hg
      have := h.ev_mem g hg
      rw [hm] at this
      exact Option.noConfusion this
    · intro w hw
      have hw2 : s.mem = some w := hw
      rw [hm] at hw2
      exact Option.noConfusion hw2
    · intro w hw
      have hw2 : s.fb = some w := hw
      rw [hf] at hw2
      exact Option.noConfusion hw2
    · intro j hj
      rcases update_pc_eq hj with ⟨-, -⟩ | ⟨-, hj2⟩
      · refine ⟨hm, hf, ?_, ?_⟩
        · show some s.count = some 0
          rw [hc0]
        · show s.count + 1 = 1
          omega
      · obtain ⟨-, -, -, hcj⟩ := h.comp_state j hj2
        omega
    · intro a b ha hb
      rcases update_pc_eq ha with ⟨ha1, -⟩ | ⟨-, ha2⟩
      · rcases update_pc_eq hb with ⟨hb1, -⟩ | ⟨-, hb2⟩
        · rw [ha1, hb1]
        · obtain ⟨-, -, -, hcj⟩ := h.comp_state b hb2
          omega
      · obtain ⟨-, -, -, hcj⟩ := h.comp_state a ha2
        omega
    · intro _
      exact Or.inl ⟨i, Function.update_same i _ _⟩
    · show s.count + 1 ≤ 1
      omega
    · intro j w hj
      show s.count + 1 = 1
      omega
  | wakeMemHit g w hpc hev hm =>
    have hwv : w = v := h.mem_v w hm
    have hc1 : s.count = 1 := h.mem_count w hm
    refine ⟨h.mem_v, h.fb_v, ?_, ?_, h.ev_mem, h.mem_count, h.fb_count,
      ?_, ?_, ?_, h.count_le, ?_⟩
    · intro j w2 hj
      rcases update_pc_eq hj with ⟨-, hpq⟩ | ⟨-, hj2⟩
      · rw [← Pc.done.inj hpq]; exact hwv
      · exact h.done_v j w2 hj2
    · intro j hj
      rcases update_pc_eq hj with ⟨-, hpq⟩ | ⟨-, hj2⟩
      · exact Pc.noConfusion hpq
      · exact h.no_fail j hj2
    · intro j hj
      rcases update_pc_eq hj with ⟨-, hpq⟩ | ⟨-, hj2⟩
      · exact Pc.noConfusion hpq
      · exact h.comp_state j hj2
    · intro a b ha hb
      rcases update_pc_eq ha with ⟨-, hpq⟩ | ⟨-, ha2⟩
      · exact Pc.noConfusion hpq
      rcases update_pc_eq hb with ⟨-, hpq⟩ | ⟨-, hb2⟩
      · exact Pc.noConfusion hpq
      exact h.comp_unique a b ha2 hb2
    · intro hc
      rcases h.count_one hc with ⟨j, hj⟩ | hmem
      · have hne : j ≠ i := ne_of_app_ne hpc hj nofun
        exact Or.inl ⟨j, (Function.update_noteq hne _ _).trans hj⟩
      · exact Or.inr hmem
    · intro j w2 hj
      rcases update_pc_eq hj with ⟨-, hpq⟩ | ⟨-, hj2⟩
      · exact hc1
      · exact h.done_count j w2 hj2
  | wakeFbHit g w hpc hev hm hf =>
    have := h.ev_mem g hev
    rw [hm] at this
    exact Option.noConfusion this
  | wakeRegister g hpc hev hm hf =>
    have := h.ev_mem g hev
    rw [hm] at this
    exact Option.noConfusion this
  | finishOk g hpc hd =>
    obtain ⟨hm, hf, hd0, hc⟩ := h.comp_state i hpc
    refine ⟨?_, ?_, ?_, ?_, ?_, ?_, ?_, ?_, ?_, ?_, h.count_le, ?_⟩
    · intro w hw
      exact (Option.some_inj.mp hw).symm
    · intro w hw
      cases useFb with
      | false =>
        have hw2 : s.fb = some w := hw
        rw [hf] at hw2
        exact Option.noConfusion hw2
      | true =>
        exact (Option.some_inj.mp hw).symm
    · intro j w hj
      rcases update_pc_eq hj with ⟨-, hpq⟩ | ⟨-, hj2⟩
      · exact (Pc.done.inj hpq).symm
      · exact h.done_v j w hj2
    · intro j hj
      rcases update_pc_eq hj with ⟨-, hpq⟩ | ⟨-, hj2⟩
      · exact Pc.noConfusion hpq
      · exact h.no_fail j hj2
    · intro g2 hg2
      rfl
    · intro w _
      exact hc
    · intro w hw
      cases useFb with
      | false =>
        have hw2 : s.fb = some w := hw
        rw [hf] at hw2
        exact Option.noConfusion hw2
      | true =>
        exact hc
    · intro j hj
      rcases update_pc_eq hj with ⟨-, hpq⟩ | ⟨hne, hj2⟩
      · exact Pc.noConfusion hpq
      · exact absurd (h.comp_unique j i hj2 hpc) hne
    · intro a b ha hb
      rcases update_pc_eq ha with ⟨-, hpq⟩ | ⟨hna, ha2⟩
      · exact Pc.noConfusion hpq
      rcases update_pc_eq hb with ⟨-, hpq⟩ | ⟨hnb, hb2⟩
      · exact Pc.noConfusion hpq
      exact h.comp_unique a b ha2 hb2
    · intro _
      exact Or.inr rfl
    · intro j w hj
      rcases update_pc_eq hj with ⟨-, hpq⟩ | ⟨-, hj2⟩
      · exact hc
      · exact h.done_count j w hj2
  | finishOkOrphan hpc hd =>
    obtain ⟨-, -, hd0, -⟩ := h.comp_state i hpc
    rw [hd] at hd0
    exact Option.noConfusion hd0
  | finishFail g hpc hd hall =>
    exact Bool.noConfusion hall
  | finishFailOrphan hpc hd hall =>
    exact Bool.noConfusion hall

/-- The invariant holds along any failure-free run. -/
theorem invS_reach_aux {K : Nat} {V : Type} {useFb : Bool} {v : V}
    {a b : St K V} (h : Reach useFb false v a b) :
    InvS useFb v a → InvS useFb v b := by
  induction h with
  | refl => exact id
  | tail b c i hr hs ih => exact fun ha => invS_step (ih ha) hs

/-- The invariant holds in every state reachable from the empty-cache state
by a failure-free run. -/
theorem invS_reach {K : Nat} {V : Type} {useFb : Bool} {v : V} {s : St K V}
    (h : Reach useFb false v (init K V) s) : InvS useFb v s :=
  invS_reach_aux h (invS_init useFb v)

/-- Single-flight collapse for the event-based coordinator: in a failure-free
run in which every caller finished, the compute ran exactly once and every
caller returned its value. -/
theorem sf_collapse {K : Nat} {V : Type} {useFb : Bool} {v : V} {s : St K V}
    (hr : Reach useFb false v (init K V) s) (hK : 0 < K)
    (hdone : ∀ i, ∃ w, s.pcs i = Pc.done w) :
    s.count = 1 ∧ ∀ i, s.pcs i = Pc.done v := by
  have h := invS_reach hr
  obtain ⟨w0, h0⟩ := hdone ⟨0, hK⟩
  refine ⟨h.done_count _ _ h0, fun i => ?_⟩
  obtain ⟨w, hw⟩ := hdone i
  rw [hw, h.done_v i w hw]

end SF

namespace PL

/-- The initial state satisfies the failure-free invariant. -/
theorem invP_init {K : Nat} {V : Type} (v : V) : InvP v (init K V) where
  mem_v := fun _ h => Option.noConfusion h
  fb_v := fun _ h => Option.noConfusion h
  done_v := fun _ _ h => Pc.noConfusion h
  no_fail := fun _ h => Pc.noConfusion h
  mem_count := fun _ h => Option.noConfusion h
  fb_count := fun _ h => Option.noConfusion h
  comp_state := fun _ h => Pc.noConfusion h
  comp_unique := fun _ _ h _ => Pc.noConfusion h
  count_one := fun hc => by simp [init] at hc
  count_le := Nat.zero_le _
  done_count := fun _ _ h => Pc.noConfusion h

/-- One failure-free step preserves the invariant. -/
theorem invP_step {K : Nat} {V : Type} {v : V} {i : Fin K} {s t : St K V}
    (h : InvP v s) (hs : Step false v i s t) : InvP v t := by
  cases hs with
  | startHit w hpc hm =>
    have hwv : w = v := h.mem_v w hm
    have hc1 : s.count = 1 := h.mem_count w hm
    refine ⟨h.mem_v, h.fb_v, ?_, ?_, h.mem_count, h.fb_count, ?_, ?_, ?_,
      h.count_le, ?_⟩
    · intro j w2 hj
      rcases update_pc_eq hj with ⟨-, hpq⟩ | ⟨-, hj2⟩
      · rw [← Pc.done.inj hpq]; exact hwv
      · exact h.done_v j w2 hj2
    · intro j hj
      rcases update_pc_eq hj with ⟨-, hpq⟩ | ⟨-, hj2⟩
      · exact Pc.noConfusion hpq
      · exact h.no_fail j hj2
    · intro j hj
      rcases update_pc_eq hj with ⟨-, hpq⟩ | ⟨-, hj2⟩
      · exact Pc.noConfusion hpq
      · exact h.comp_state j hj2
    · intro a b ha hb
      rcases update_pc_eq ha with ⟨-, hpq⟩ | ⟨-, ha2⟩
      · exact Pc.noConfusion hpq
      rcases update_pc_eq hb with ⟨-, hpq⟩ | ⟨-, hb2⟩
      · exact Pc.noConfusion hpq
      exact h.comp_unique a b ha2 hb2
    · intro hc
      rcases h.count_one hc with ⟨j, hj⟩ | hmem
      · have hne : j ≠ i := ne_of_app_ne hpc hj nofun
        exact Or.inl ⟨j, (Function.update_noteq hne _ _).trans hj⟩
      · exact Or.inr hmem
    · intro j w2 hj
      rcases update_pc_eq hj with ⟨-, hpq⟩ | ⟨-, hj2⟩
      · exact hc1
      · exact h.done_count j w2 hj2
  | startFbHit w hpc hm hl hf =>
    have hwv : w = v := h.fb_v w hf
    have hc1 : s.count = 1 := h.fb_count w hf
    refine ⟨?_, h.fb_v, ?_, ?_, ?_, h.fb_count, ?_, ?_, ?_, h.count_le, ?_⟩
    · intro w2 hw2
      rw [← Option.some_inj.mp hw2]; exact hwv
    · intro j w2 hj
      rcases update_pc_eq hj with ⟨-, hpq⟩ | ⟨-, hj2⟩
      · rw [← Pc.done.inj hpq]; exact hwv
      · exact h.done_v j w2 hj2
    · intro j hj
      rcases update_pc_eq hj with ⟨-, hpq⟩ | ⟨-, hj2⟩
      · exact Pc.noConfusion hpq
      · exact h.no_fail j hj2
    · intro w2 _
      exact hc1
    · intro j hj
      rcases update_pc_eq hj with ⟨-, hpq⟩ | ⟨-, hj2⟩
      · exact Pc.noConfusion hpq
      · obtain ⟨-, -, hfb, -⟩ := h.comp_state j hj2
        rw [hf] at hfb
        exact Option.noConfusion hfb
    · intro a b ha hb
      rcases update_pc_eq ha with ⟨-, hpq⟩ | ⟨-, ha2⟩
      · exact Pc.noConfusion hpq
      rcases update_pc_eq hb with ⟨-, hpq⟩ | ⟨-, hb2⟩
      · exact Pc.noConfusion hpq
      exact h.comp_unique a b ha2 hb2
    · intro hc
      refine Or.inr ?_
      show some w = some v
      rw [hwv]
    · intro j w2 hj
      rcases update_pc_eq hj with ⟨-, hpq⟩ | ⟨-, hj2⟩
      · exact hc1
      · exact h.done_count j w2 hj2
  | startRegister hpc hm hl hf =>
    have hc0 : s.count = 0 := by
      rcases Nat.le_one_iff_eq_zero_or_eq_one.mp h.count_le with h0 | h1
      · exact h0
      · rcases h.count_one h1 with ⟨j, hj⟩ | hmem
        · obtain ⟨hlj, -, -, -⟩ := h.comp_state j hj
          rw [hl] at hlj
          exact Bool.noConfusion hlj
        · rw [hm] at hmem
          exact Option.noConfusion hmem
    refine ⟨h.mem_v, h.fb_v, ?_, ?_, ?_, ?_, ?_, ?_, ?_, ?_, ?_⟩
    · intro j w hj
      rcases update_pc_eq hj with ⟨-, hpq⟩ | ⟨-, hj2⟩
      · exact Pc.noConfusion hpq
      · exact h.done_v j w hj2
    · intro j hj
      rcases update_pc_eq hj with ⟨-, hpq⟩ | ⟨-, hj2⟩
      · exact Pc.noConfusion hpq
      · exact h.no_fail j hj2
    · intro w hw
      have hw2 : s.mem = some w := hw
      rw [hm] at hw2
      exact Option.noConfusion hw2
    · intro w hw
      have hw2 : s.fb = some w := hw
      rw [hf] at hw2
      exact Option.noConfusion hw2
    · intro j hj
      rcases update_pc_eq hj with ⟨-, -⟩ | ⟨-, hj2⟩
      · refine ⟨rfl, hm, hf, ?_⟩
        show s.count + 1 = 1
        omega
      · obtain ⟨-, -, -, hcj⟩ := h.comp_state j hj2
        omega
    · intro a b ha hb
      rcases update_pc_eq ha with ⟨ha1, -⟩ | ⟨-, ha2⟩
      · rcases update_pc_eq hb with ⟨hb1, -⟩ | ⟨-, hb2⟩
        · rw [ha1, hb1]
        · obtain ⟨-, -, -, hcj⟩ := h.comp_state b hb2
          omega
      · obtain ⟨-, -, -, hcj⟩ := h.comp_state a ha2
        omega
    · intro _
      exact Or.inl ⟨i, Function.update_same i _ _⟩
    · show s.count + 1 ≤ 1
      omega
    · intro j w hj
      show s.count + 1 = 1
      omega
  | startBlocked hpc hm hl =>
    refine ⟨h.mem_v, h.fb_v, ?_, ?_, h.mem_count, h.fb_count, ?_, ?_, ?_,
      h.count_le, ?_⟩
    · intro j w hj
      rcases update_pc_eq hj with ⟨-, hpq⟩ | ⟨-, hj2⟩
      · exact Pc.noConfusion hpq
      · exact h.done_v j w hj2
    · intro j hj
      rcases update_pc_eq hj with ⟨-, hpq⟩ | ⟨-, hj2⟩
      · exact Pc.noConfusion hpq
      · exact h.no_fail j hj2
    · intro j hj
      rcases update_pc_eq hj with ⟨-, hpq⟩ | ⟨-, hj2⟩
      · exact Pc.noConfusion hpq
      · exact h.comp_state j hj2
    · intro a b ha hb
      rcases update_pc_eq ha with ⟨-, hpq⟩ | ⟨-, ha2⟩
      · exact Pc.noConfusion hpq
      rcases update_pc_eq hb with ⟨-, hpq⟩ | ⟨-, hb2⟩
      · exact Pc.noConfusion hpq
      exact h.comp_unique a b ha2 hb2
    · intro hc
      rcases h.count_one hc with ⟨j, hj⟩ | hmem
      · have hne : j ≠ i := ne_of_app_ne hpc hj nofun
        exact Or.inl ⟨j, (Function.update_noteq hne _ _).trans hj⟩
      · exact Or.inr hmem
    · intro j w hj
      rcases update_pc_eq hj with ⟨-, hpq⟩ | ⟨-, hj2⟩
      · exact Pc.noConfusion hpq
      · exact h.done_count j w hj2
  | blockedHit w hpc hl hm =>
    have hwv : w = v := h.mem_v w hm
    have hc1 : s.count = 1 := h.mem_count w hm
    refine ⟨h.mem_v, h.fb_v, ?_, ?_, h.mem_count, h.fb_count, ?_, ?_, ?_,
      h.count_le, ?_⟩
    · intro j w2 hj
      rcases update_pc_eq hj with ⟨-, hpq⟩ | ⟨-, hj2⟩
      · rw [← Pc.done.inj hpq]; exact hwv
      · exact h.done_v j w2 hj2
    · intro j hj
      rcases update_pc_eq hj with ⟨-, hpq⟩ | ⟨-, hj2⟩
      · exact Pc.noConfusion hpq
      · exact h.no_fail j hj2
    · intro j hj
      rcases update_pc_eq hj with ⟨-, hpq⟩ | ⟨-, hj2⟩
      · exact Pc.noConfusion hpq
      · exact h.comp_state j hj2
    · intro a b ha hb
      rcases update_pc_eq ha with ⟨-, hpq⟩ | ⟨-, ha2⟩
      · exact Pc.noConfusion hpq
      rcases update_pc_eq hb with ⟨-, hpq⟩ | ⟨-, hb2⟩
      · exact Pc.noConfusion hpq
      exact h.comp_unique a b ha2 hb2
    · intro hc
      rcases h.count_one hc with ⟨j, hj⟩ | hmem
      · have hne : j ≠ i := ne_of_app_ne hpc hj nofun
        exact Or.inl ⟨j, (Function.update_noteq hne _ _).trans hj⟩
      · exact Or.inr hmem
    · intro j w2 hj
      rcases update_pc_eq hj with ⟨-, hpq⟩ | ⟨-, hj2⟩
      · exact hc1
      · exact h.done_count j w2 hj2
  | blockedFbHit w hpc hl hm hf =>
    have hwv : w = v := h.fb_v w hf
    have hc1 : s.count = 1 := h.fb_count w hf
    refine ⟨?_, h.fb_v, ?_, ?_, ?_, h.fb_count, ?_, ?_, ?_, h.count_le, ?_⟩
    · intro w2 hw2
      rw [← Option.some_inj.mp hw2]; exact hwv
    · intro j w2 hj
      rcases update_pc_eq hj with ⟨-, hpq⟩ | ⟨-, hj2⟩
      · rw [← Pc.done.inj hpq]; exact hwv
      · exact h.done_v j w2 hj2
    · intro j hj
      rcases update_pc_eq hj with ⟨-, hpq⟩ | ⟨-, hj2⟩
      · exact Pc.noConfusion hpq
      · exact h.no_fail j hj2
    · intro w2 _
      exact hc1
    · intro j hj
      rcases update_pc_eq hj with ⟨-, hpq⟩ | ⟨-, hj2⟩
      · exact Pc.noConfusion hpq
      · obtain ⟨-, -, hfb, -⟩ := h.comp_state j hj2
        rw [hf] at hfb
        exact Option.noConfusion hfb
    · intro a b ha hb
      rcases update_pc_eq ha with ⟨-, hpq⟩ | ⟨-, ha2⟩
      · exact Pc.noConfusion hpq
      rcases update_pc_eq hb with ⟨-, hpq⟩ | ⟨-, hb2⟩
      · exact Pc.noConfusion hpq
      exact h.comp_unique a b ha2 hb2
    · intro hc
      refine Or.inr ?_
      show some w = some v
      rw [hwv]
    · intro j w2 hj
      rcases update_pc_eq hj with ⟨-, hpq⟩ | ⟨-, hj2⟩
      · exact hc1
      · exact h.done_count j w2 hj2
  | blockedRegister hpc hl hm hf =>
    have hc0 : s.count = 0 := by
      rcases Nat.le_one_iff_eq_zero_or_eq_one.mp h.count_le with h0 | h1
      · exact h0
      · rcases h.count_one h1 with ⟨j, hj⟩ | hmem
        · obtain ⟨hlj, -, -, -⟩ := h.comp_state j hj
          rw [hl] at hlj
          exact Bool.noConfusion hlj
        · rw [hm] at hmem
          exact Option.noConfusion hmem
    refine ⟨h.mem_v, h.fb_v, ?_, ?_, ?_, ?_, ?_, ?_, ?_, ?_, ?_⟩
    · intro j w hj
      rcases update_pc_eq hj with ⟨-, hpq⟩ | ⟨-, hj2⟩
      · exact Pc.noConfusion hpq
      · exact h.done_v j w hj2
    · intro j hj
      rcases update_pc_eq hj with ⟨-, hpq⟩ | ⟨-, hj2⟩
      · exact Pc.noConfusion hpq
      · exact h.no_fail j hj2
    · intro w hw
      have hw2 : s.mem = some w := hw
      rw [hm] at hw2
      exact Option.noConfusion hw2
    · intro w hw
      have hw2 : s.fb = some w := hw
      rw [hf] at hw2
      exact Option.noConfusion hw2
    · intro j hj
      rcases update_pc_eq hj with ⟨-, -⟩ | ⟨-, hj2⟩
      · refine ⟨rfl, hm, hf, ?_⟩
        show s.count + 1 = 1
        omega
      · obtain ⟨-, -, -, hcj⟩ := h.comp_state j hj2
        omega
    · intro a b ha hb
      rcases update_pc_eq ha with ⟨ha1, -⟩ | ⟨-, ha2⟩
      · rcases update_pc_eq hb with ⟨hb1, -⟩ | ⟨-, hb2⟩
        · rw [ha1, hb1]
        · obtain ⟨-, -, -, hcj⟩ := h.comp_state b hb2
          omega
      · obtain ⟨-, -, -, hcj⟩ := h.comp_state a ha2
        omega
    · intro _
      exact Or.inl ⟨i, Function.update_same i _ _⟩
    · show s.count + 1 ≤ 1
      omega
    · intro j w hj
      show s.count + 1 = 1
      omega
  | finishOk hpc =>
    obtain ⟨hl, hm, hf, hc⟩ := h.comp_state i hpc
    refine ⟨?_, ?_, ?_, ?_, ?_, ?_, ?_, ?_, ?_, h.count_le, ?_⟩
    · intro w hw
      exact (Option.some_inj.mp hw).symm
    · intro w hw
      exact (Option.some_inj.mp hw).symm
    · intro j w hj
      rcases update_pc_eq hj with ⟨-, hpq⟩ | ⟨-, hj2⟩
      · exact (Pc.done.inj hpq).symm
      · exact h.done_v j w hj2
    · intro j hj
      rcases update_pc_eq hj with ⟨-, hpq⟩ | ⟨-, hj2⟩
      · exact Pc.noConfusion hpq
      · exact h.no_fail j hj2
    · intro w _
      exact hc
    · intro w _
      exact hc
    · intro j hj
      rcases update_pc_eq hj with ⟨-, hpq⟩ | ⟨hne, hj2⟩
      · exact Pc.noConfusion hpq
      · exact absurd (h.comp_unique j i hj2 hpc) hne
    · intro a b ha hb
      rcases update_pc_eq ha with ⟨-, hpq⟩ | ⟨-, ha2⟩
      · exact Pc.noConfusion hpq
      rcases update_pc_eq hb with ⟨-, hpq⟩ | ⟨-, hb2⟩
      · exact Pc.noConfusion hpq
      exact h.comp_unique a b ha2 hb2
    · intro _
      exact Or.inr rfl
    · intro j w hj
      rcases update_pc_eq hj with ⟨-, hpq⟩ | ⟨-, hj2⟩
      · exact hc
      · exact h.done_count j w hj2
  | finishFail hpc hall =>
    exact Bool.noConfusion hall

/-- The invariant holds along any failure-free run. -/
theorem invP_reach_aux {K : Nat} {V : Type} {v : V} {a b : St K V}
    (h : Reach false v a b) : InvP v a → InvP v b := by
  induction h with
  | refl => exact id
  | tail b c i hr hs ih => exact fun ha => invP_step (ih ha) hs

/-- The invariant holds in every state reachable from the empty-cache state
by a failure-free run. -/
theorem invP_reach {K : Nat} {V : Type} {v : V} {s : St K V}
    (h : Reach false v (init K V) s) : InvP v s :=
  invP_reach_aux h (invP_init v)

/-- Single-flight collapse for the lock-based coordinator. -/
theorem pl_collapse {K : Nat} {V : Type} {v : V} {s : St K V}
    (hr : Reach false v (init K V) s) (hK : 0 < K)
    (hdone : ∀ i, ∃ w, s.pcs i = Pc.done w) :
    s.count = 1 ∧ ∀ i, s.pcs i = Pc.done v := by
  have h := invP_reach hr
  obtain ⟨w0, h0⟩ := hdone ⟨0, hK⟩
  refine ⟨h.done_count _ _ h0, fun i => ?_⟩
  obtain ⟨w, hw⟩ := hdone i
  rw [hw, h.done_v i w hw]

end PL

/-! ### Helper lemmas about the pure policy functions -/

/-- The route calculator produces exactly the three statuses of the source. -/
theorem calcIR_status (s e : Loc) (vehicle : String) (d : ℚ)
    (provider : Except String (List PRoute)) :
    (calculateIntelligentRoute s e vehicle d provider).1.status = "success" ∨
    (calculateIntelligentRoute s e vehicle d provider).1.status = "estimated" ∨
    (calculateIntelligentRoute s e vehicle d provider).1.status = "basic" := by
  cases provider with
  | error msg =>
    by_cases h1 : d ≤ 120
    · simp [calculateIntelligentRoute, h1, basicInfo]
    · by_cases h2 : d ≤ 300 <;>
        simp [calculateIntelligentRoute, h1, h2, estimatedInfo]
  | ok routes =>
    by_cases h1 : d ≤ 120
    · cases routes <;> simp [calculateIntelligentRoute, h1, successInfo]
    · by_cases h2 : d ≤ 300
      · cases routes <;> simp [calculateIntelligentRoute, h1, h2, successInfo]
      · simp [calculateIntelligentRoute, h1, h2, estimatedInfo]

/-- On a key absent from both tiers, the cached-route policy reduces to:
compute, cache iff `shouldCacheRoute`, report that the computation ran. -/
theorem calcSeq_fresh (now : Nat) (st : RouteCacheState RouteInfo)
    (key : String) (r : RouteInfo) (hm : st.mem key = none)
    (hf : st.fb key = none) :
    calcCachedRouteSeq now true st key r =
      if shouldCacheRoute r then (cacheRoute now true st key r 24, r, true)
      else (st, r, true) := by
  simp [calcCachedRouteSeq, getCachedRoute, fbPhase, fbRead, hm, hf]

/-- Caching writes the fast tier at the key. -/
theorem cacheRoute_mem {V : Type} (now : Nat) (fbOk : Bool)
    (st : RouteCacheState V) (key : String) (dta : V) (hrs : Nat) :
    (cacheRoute now fbOk st key dta hrs).mem key =
      some ⟨dta, now + hoursToTicks hrs⟩ := by
  cases fbOk <;> simp [cacheRoute, fbWrite, mapPut]

/-- Caching with a healthy durable tier writes it at the key as well. -/
theorem cacheRoute_fb {V : Type} (now : Nat) (st : RouteCacheState V)
    (key : String) (dta : V) (hrs : Nat) :
    (cacheRoute now true st key dta hrs).fb key =
      some ⟨dta, now + hoursToTicks hrs⟩ := by
  simp [cacheRoute, fbWrite, mapPut]

/-- Sorting is permutation-invariant because `pairLe` is a total order. -/
theorem pySorted_perm_eq {l1 l2 : List (String × String)} (hp : l1.Perm l2) :
    pySorted l1 = pySorted l2 :=
  List.eq_of_perm_of_sorted
    ((List.perm_insertionSort pairLe l1).trans
      (hp.trans (List.perm_insertionSort pairLe l2).symm))
    (List.sorted_insertionSort pairLe l1)
    (List.sorted_insertionSort pairLe l2)

/-! ### Claims -/

/-- C3: after `calculate_cached_route` computes a fresh result for an uncached
key, a cache entry exists in some tier iff the result status is `success` or
`estimated`; a `basic` result is never written to either tier, and the next
call for the key invokes the route computation again. -/
theorem C3_basic_never_cached :
    ∀ (now : Nat) (st : RouteCacheState RouteInfo) (key : String)
      (s e : Loc) (vehicle : String) (d : ℚ)
      (provider : Except String (List PRoute)),
      st.mem key = none → st.fb key = none →
      ((((calcCachedRouteSeq now true st key
            (calculateIntelligentRoute s e vehicle d provider).1).1.mem
              key).isSome = true ∨
        ((calcCachedRouteSeq now true st key
            (calculateIntelligentRoute s e vehicle d provider).1).1.fb
              key).isSome = true) ↔
        ((calculateIntelligentRoute s e vehicle d provider).1.status =
          "success" ∨
         (calculateIntelligentRoute s e vehicle d provider).1.status =
          "estimated")) ∧
      ((calculateIntelligentRoute s e vehicle d provider).1.status = "basic" →
        (calcCachedRouteSeq now true st key
          (calculateIntelligentRoute s e vehicle d provider).1).1 = st ∧
        (calcCachedRouteSeq now true st key
          (calculateIntelligentRoute s e vehicle d provider).1).2.2 = true) := by
  intro now st key s e vehicle d provider hm hf
  rcases calcIR_status s e vehicle d provider with hst | hst | hst
  · have hsc : shouldCacheRoute
        (calculateIntelligentRoute s e vehicle d provider).1 = true := by
      simp [shouldCacheRoute, hst]
    rw [calcSeq_fresh now st key _ hm hf, if_pos hsc]
    constructor
    · constructor
      · intro _
        exact Or.inl hst
      · intro _
        exact Or.inl (by rw [cacheRoute_mem]; rfl)
    · intro hb
      rw [hst] at hb
      exact absurd hb (by decide)
  · have hsc : shouldCacheRoute
        (calculateIntelligentRoute s e vehicle d provider).1 = true := by
      simp [shouldCacheRoute, hst]
    rw [calcSeq_fresh now st key _ hm hf, if_pos hsc]
    constructor
    · constructor
      · intro _
        exact Or.inr hst
      · intro _
        exact Or.inl (by rw [cacheRoute_mem]; rfl)
    · intro hb
      rw [hst] at hb
      exact absurd hb (by decide)
  · have hsc : shouldCacheRoute
        (calculateIntelligentRoute s e vehicle d provider).1 = false := by
      simp [shouldCacheRoute, hst]
    rw [calcSeq_fresh now st key _ hm hf, if_neg (by rw [hsc]; decide)]
    constructor
    · constructor
      · intro habs
        rcases habs with habs | habs
        · rw [hm] at habs
          exact absurd habs (by decide)
        · rw [hf] at habs
          exact absurd habs (by decide)
      · intro habs
        rcases habs with habs | habs <;> rw [hst] at habs <;>
          exact absurd habs (by decide)
    · intro _
      exact ⟨rfl, rfl⟩

/-- C3 witness: a concrete fresh-key run with a long-distance (estimated)
route result. -/
theorem C3_witness :
    (((calcCachedRouteSeq 5 true ⟨fun _ => none, fun _ => none⟩ "k"
        (calculateIntelligentRoute ⟨"A", 0, 0⟩ ⟨"B", 1, 1⟩ "car" 600
          (Except.ok [])).1).1.mem "k").isSome = true ∨
     ((calcCachedRouteSeq 5 true ⟨fun _ => none, fun _ => none⟩ "k"
        (calculateIntelligentRoute ⟨"A", 0, 0⟩ ⟨"B", 1, 1⟩ "car" 600
          (Except.ok [])).1).1.fb "k").isSome = true) ↔
    ((calculateIntelligentRoute ⟨"A", 0, 0⟩ ⟨"B", 1, 1⟩ "car" 600
        (Except.ok [])).1.status = "success" ∨
     (calculateIntelligentRoute ⟨"A", 0, 0⟩ ⟨"B", 1, 1⟩ "car" 600
        (Except.ok [])).1.status = "estimated") :=
  (C3_basic_never_cached 5 ⟨fun _ => none, fun _ => none⟩ "k"
    ⟨"A", 0, 0⟩ ⟨"B", 1, 1⟩ "car" 600 (Except.ok []) rfl rfl).1

/-- C4: the two-tier lookup checks the fast tier first and returns its value
iff the expiry is strictly in the future; an expired fast-tier entry is
deleted and the lookup falls through; an unexpired durable entry is copied
into the fast tier and returned; an expired durable entry is deleted from the
durable tier with an absent result; a doubly absent key yields absent. -/
theorem C4_two_tier_lookup :
    ∀ (V : Type) (now : Nat) (st : RouteCacheState V) (key : String),
      (∀ e : RouteEntry V, st.mem key = some e → now < e.expires_at →
        getCachedRoute now true st key = (some e.data, st)) ∧
      (∀ e : RouteEntry V, st.mem key = some e → ¬ now < e.expires_at →
        getCachedRoute now true st key =
          fbPhase now true { st with mem := mapDel st.mem key } key ∧
        mapDel st.mem key key = none) ∧
      (∀ f : RouteEntry V, st.mem key = none → st.fb key = some f →
        now < f.expires_at →
        getCachedRoute now true st key =
          (some f.data, { st with mem := mapPut st.mem key f })) ∧
      (∀ f : RouteEntry V, st.mem key = none → st.fb key = some f →
        ¬ now < f.expires_at →
        getCachedRoute now true st key =
          (none, { st with fb := mapDel st.fb key })) ∧
      (st.mem key = none → st.fb key = none →
        getCachedRoute now true st key = (none, st)) := by
  intro V now st key
  refine ⟨?_, ?_, ?_, ?_, ?_⟩
  · intro f hm hexp
    simp [getCachedRoute, hm, hexp]
  · intro f hm hexp
    refine ⟨?_, by simp [mapDel]⟩
    simp [getCachedRoute, hm, hexp]
  · intro f hm hfb hexp
    simp [getCachedRoute, fbPhase, fbRead, hm, hfb, hexp]
  · intro f hm hfb hexp
    simp [getCachedRoute, fbPhase, fbRead, fbDeleteKey, hm, hfb, hexp]
  · intro hm hfb
    simp [getCachedRoute, fbPhase, fbRead, hm, hfb]

/-- C4 witness: a key present only in the durable tier and unexpired is
copied into the fast tier and returned. -/
theorem C4_witness :
    getCachedRoute 5 true
      (⟨fun _ => none, fun k => if k = "k" then some ⟨42, 10⟩ else none⟩ :
        RouteCacheState Nat) "k" =
    (some 42,
      { (⟨fun _ => none, fun k => if k = "k" then some ⟨42, 10⟩ else none⟩ :
          RouteCacheState Nat) with
        mem := mapPut (fun _ => none) "k" ⟨42, 10⟩ }) :=
  (C4_two_tier_lookup Nat 5
      (⟨fun _ => none, fun k => if k = "k" then some ⟨42, 10⟩ else none⟩ :
        RouteCacheState Nat) "k").2.2.1 ⟨42, 10⟩ rfl (by simp) (by decide)

/-- C5: cache keys are stable under permutation of parameter insertion order
and, for the route key, under case and surrounding-whitespace variants of the
string parameter values. -/
theorem C5_cache_key_stability :
    (∀ (pfx : String) (l1 l2 : List (String × String)), l1.Perm l2 →
      getCacheKey pfx l1 = getCacheKey pfx l2) ∧
    (∀ s1 s2 e1 e2 v1 v2 p1 p2 : String,
      pyLowerStrip s1 = pyLowerStrip s2 → pyLowerStrip e1 = pyLowerStrip e2 →
      pyToLower v1 = pyToLower v2 → pyToLower p1 = pyToLower p2 →
      getRouteCacheKey s1 e1 v1 p1 = getRouteCacheKey s2 e2 v2 p2) := by
  constructor
  · intro pfx l1 l2 hp
    unfold getCacheKey
    rw [pySorted_perm_eq hp]
  · intro s1 s2 e1 e2 v1 v2 p1 p2 h1 h2 h3 h4
    unfold getRouteCacheKey
    rw [h1, h2, h3, h4]

/-- C5 witness: swapped insertion order and case/whitespace variants of the
route parameters produce identical keys. -/
theorem C5_witness :
    getCacheKey "route" [("b", "2"), ("a", "1")] =
      getCacheKey "route" [("a", "1"), ("b", "2")] ∧
    getRouteCacheKey "Lahore " "Islamabad" "Car" "FASTEST" =
      getRouteCacheKey "lahore" " islamabad" "car" "fastest" :=
  ⟨C5_cache_key_stability.1 "route" _ _ (List.Perm.swap _ _ _),
   C5_cache_key_stability.2 "Lahore " "lahore" "Islamabad" " islamabad"
     "Car" "car" "FASTEST" "fastest" (by decide) (by decide) (by decide)
     (by decide)⟩

/-- C7: with the durable tier raising on every call, get, put and invalidate
return normally and degrade to fast-tier-only caching: lookups serve
unexpired in-memory entries (and only those), puts still populate the
in-memory map, and clearing still empties it, returning the error dict. -/
theorem C7_durable_outage_transparency :
    ∀ (V : Type) (now : Nat) (st : RouteCacheState V) (key : String),
      (∀ e : RouteEntry V, st.mem key = some e → now < e.expires_at →
        getCachedRoute now false st key = (some e.data, st)) ∧
      (∀ e : RouteEntry V, st.mem key = some e → ¬ now < e.expires_at →
        getCachedRoute now false st key =
          (none, { st with mem := mapDel st.mem key })) ∧
      (st.mem key = none → getCachedRoute now false st key = (none, st)) ∧
      (∀ (dta : V) (hrs : Nat),
        cacheRoute now false st key dta hrs =
          { st with mem := mapPut st.mem key ⟨dta, now + hoursToTicks hrs⟩ }) ∧
      clearRouteCache false st = ({ st with mem := fun _ => none }, false) := by
  intro V now st key
  refine ⟨?_, ?_, ?_, ?_, ?_⟩
  · intro f hm hexp
    simp [getCachedRoute, hm, hexp]
  · intro f hm hexp
    simp [getCachedRoute, fbPhase, fbRead, hm, hexp]
  · intro hm
    simp [getCachedRoute, fbPhase, fbRead, hm]
  · intro dta hrs
    simp [cacheRoute, fbWrite]
  · simp [clearRouteCache, fbDeleteAll]

/-- C7 witness: with the durable tier down, a put followed by a lookup at the
same tick still serves the value from memory. -/
theorem C7_witness :
    cacheRoute 5 false
        (⟨fun _ => none, fun _ => none⟩ : RouteCacheState Nat) "k" 42 24 =
      { (⟨fun _ => none, fun _ => none⟩ : RouteCacheState Nat) with
        mem := mapPut (fun _ => none) "k" ⟨42, 5 + hoursToTicks 24⟩ } ∧
    getCachedRoute 6 false
        { (⟨fun _ => none, fun _ => none⟩ : RouteCacheState Nat) with
          mem := mapPut (fun _ => none) "k" ⟨42, 5 + hoursToTicks 24⟩ } "k" =
      (some 42,
        { (⟨fun _ => none, fun _ => none⟩ : RouteCacheState Nat) with
          mem := mapPut (fun _ => none) "k" ⟨42, 5 + hoursToTicks 24⟩ }) :=
  ⟨(C7_durable_outage_transparency Nat 5
      (⟨fun _ => none, fun _ => none⟩ : RouteCacheState Nat) "k").2.2.2.1 42 24,
   (C7_durable_outage_transparency Nat 6
      { (⟨fun _ => none, fun _ => none⟩ : RouteCacheState Nat) with
        mem := mapPut (fun _ => none) "k" ⟨42, 5 + hoursToTicks 24⟩ }
      "k").1 ⟨42, 5 + hoursToTicks 24⟩ (by simp [mapPut]) (by decide)⟩

/-- C6: strategy selection by haversine distance and the estimation formula:
at or below 120 the provider is called directly; in the 120-300 band the
provider is attempted and a failure falls back to estimation; above 300 the
provider is never called; estimation uses the per-vehicle table with highway
speed times 0.8 above 500, highway speed times 0.7 in the 200-500 band and
city speed times 1.2 otherwise, the time is the distance over that average
speed rounded to one decimal, and the geometry is exactly the two
endpoints. -/
theorem C6_route_strategy_bands :
    ∀ (s e : Loc) (vehicle : String) (d : ℚ)
      (provider : Except String (List PRoute)),
      (d ≤ 120 → (calculateIntelligentRoute s e vehicle d provider).2 = true) ∧
      (120 < d → d ≤ 300 →
        (calculateIntelligentRoute s e vehicle d provider).2 = true ∧
        (∀ msg, provider = .error msg →
          (calculateIntelligentRoute s e vehicle d provider).1 =
            estimatedInfo s e vehicle d)) ∧
      (300 < d →
        calculateIntelligentRoute s e vehicle d provider =
          (estimatedInfo s e vehicle d, false)) ∧
      (createEstimatedRoute s e vehicle d).geometry =
        [(s.lng, s.lat), (e.lng, e.lat)] ∧
      (500 < d →
        (createEstimatedRoute s e vehicle d).estimated_time_hours =
          pyRound1 (d / ((speedMap vehicle).highway * (8 / 10)))) ∧
      (200 < d → d ≤ 500 →
        (createEstimatedRoute s e vehicle d).estimated_time_hours =
          pyRound1 (d / ((speedMap vehicle).highway * (7 / 10)))) ∧
      (d ≤ 200 →
        (createEstimatedRoute s e vehicle d).estimated_time_hours =
          pyRound1 (d / ((speedMap vehicle).city * (12 / 10)))) := by
  intro s e vehicle d provider
  refine ⟨?_, ?_, ?_, ?_, ?_, ?_, ?_⟩
  · intro h1
    cases provider <;> simp [calculateIntelligentRoute, h1]
  · intro h1 h2
    have h1n : ¬ d ≤ 120 := not_le.mpr h1
    constructor
    · cases provider <;> simp [calculateIntelligentRoute, h1n, h2]
    · intro msg hp
      subst hp
      simp [calculateIntelligentRoute, h1n, h2]
  · intro h3
    have h1n : ¬ d ≤ 120 := not_le.mpr (lt_trans (by norm_num) h3)
    have h2n : ¬ d ≤ 300 := not_le.mpr h3
    cases provider <;> simp [calculateIntelligentRoute, h1n, h2n]
  · simp [createEstimatedRoute]
  · intro h5
    simp [createEstimatedRoute, h5]
  · intro h5a h5b
    have h5n : ¬ 500 < d := not_lt.mpr h5b
    simp [createEstimatedRoute, h5n, h5a]
  · intro h6
    have h5n : ¬ 500 < d := not_lt.mpr (h6.trans (by norm_num))
    have h2n : ¬ 200 < d := not_lt.mpr h6
    simp [createEstimatedRoute, h5n, h2n]

/-- C6 witness: concrete distances in each band. -/
theorem C6_witness :
    (calculateIntelligentRoute ⟨"A", 0, 0⟩ ⟨"B", 1, 1⟩ "car" 100
        (Except.ok [])).2 = true ∧
    (calculateIntelligentRoute ⟨"A", 0, 0⟩ ⟨"B", 1, 1⟩ "car" 250
        (Except.error "x")).1 =
      estimatedInfo ⟨"A", 0, 0⟩ ⟨"B", 1, 1⟩ "car" 250 ∧
    calculateIntelligentRoute ⟨"A", 0, 0⟩ ⟨"B", 1, 1⟩ "car" 400
        (Except.error "x") =
      (estimatedInfo ⟨"A", 0, 0⟩ ⟨"B", 1, 1⟩ "car" 400, false) ∧
    (createEstimatedRoute ⟨"A", 0, 0⟩ ⟨"B", 1, 1⟩ "car" 600).estimated_time_hours =
      pyRound1 (600 / ((speedMap "car").highway * (8 / 10))) :=
  ⟨(C6_route_strategy_bands ⟨"A", 0, 0⟩ ⟨"B", 1, 1⟩ "car" 100
      (Except.ok [])).1 (by norm_num),
   ((C6_route_strategy_bands ⟨"A", 0, 0⟩ ⟨"B", 1, 1⟩ "car" 250
      (Except.error "x")).2.1 (by norm_num) (by norm_num)).2 "x" rfl,
   (C6_route_strategy_bands ⟨"A", 0, 0⟩ ⟨"B", 1, 1⟩ "car" 400
      (Except.error "x")).2.2.1 (by norm_num),
   (C6_route_strategy_bands ⟨"A", 0, 0⟩ ⟨"B", 1, 1⟩ "car" 600
      (Except.ok [])).2.2.2.2.1 (by norm_num)⟩

/-- C8 counterexample: clearing the hotspot cache for a date leaves that
date's durable (Firebase) pool record in place, contradicting the claim that
the entry is removed from both the in-memory cache and the durable store. -/
theorem C8_counterexample :
    (clearHotspotCache (some "2025-01-01")
        (⟨fun _ => some 1, fun _ => some 0, fun _ => some 1⟩ :
          HotspotState Nat)).fb "2025-01-01" = some 1 ∧
    ¬ ((clearHotspotCache (some "2025-01-01")
        (⟨fun _ => some 1, fun _ => some 0, fun _ => some 1⟩ :
          HotspotState Nat)).fb "2025-01-01" = none) :=
  ⟨rfl, fun h => Option.noConfusion h⟩

/-- C8 (amended): `clear_route_cache` empties the in-memory route map and
deletes the durable routes record; `clear_hotspot_cache` removes the targeted
entries (one date, or all) from the in-memory pool cache and timestamp map
only, leaving the durable store untouched. -/
theorem C8_invalidation :
    (∀ (V : Type) (st : RouteCacheState V),
      (clearRouteCache true st).1.mem = (fun _ => none) ∧
      (clearRouteCache true st).1.fb = (fun _ => none) ∧
      (clearRouteCache true st).2 = true) ∧
    (∀ (P : Type) (st : HotspotState P) (d : String),
      (clearHotspotCache (some d) st).poolCache (hotspotCacheKey d) = none ∧
      (clearHotspotCache (some d) st).timestamps (hotspotCacheKey d) = none ∧
      (clearHotspotCache (some d) st).fb = st.fb) ∧
    (∀ (P : Type) (st : HotspotState P),
      (clearHotspotCache none st).poolCache = (fun _ => none) ∧
      (clearHotspotCache none st).timestamps = (fun _ => none) ∧
      (clearHotspotCache none st).fb = st.fb) := by
  refine ⟨?_, ?_, ?_⟩
  · intro V st
    exact ⟨rfl, rfl, rfl⟩
  · intro P st d
    refine ⟨?_, ?_, rfl⟩ <;> simp [clearHotspotCache, mapDel]
  · intro P st
    exact ⟨rfl, rfl, rfl⟩

/-- C9: the per-user daily assignment returns an index within the pool and is
deterministic in its three arguments. -/
theorem C9_user_assignment :
    ∀ (user_id date_str : String) (pool_size : Nat), 0 < pool_size →
      getUserHotspotIndex user_id date_str pool_size < pool_size ∧
      getUserHotspotIndex user_id date_str pool_size =
        getUserHotspotIndex user_id date_str pool_size :=
  fun _ _ _ hP => ⟨Nat.mod_lt _ hP, rfl⟩

/-- C9 witness: a concrete user and date with a pool of four. -/
theorem C9_witness :
    0 < 4 ∧
    getUserHotspotIndex "user-1" "2025-10-12" 4 < 4 ∧
    getUserHotspotIndex "user-1" "2025-10-12" 4 =
      getUserHotspotIndex "user-1" "2025-10-12" 4 :=
  ⟨by decide, C9_user_assignment "user-1" "2025-10-12" 4 (by decide)⟩

/-- C10 counterexample: at distance 200 a provider failure produces the
`estimated` fallback, not the `basic` result the claim asserts for every
provider failure. -/
theorem C10_counterexample :
    ¬ ((calculateIntelligentRoute ⟨"A", 0, 0⟩ ⟨"B", 1, 1⟩ "car" 200
        (Except.error "provider down")).1.status = "basic") := by
  have h : (calculateIntelligentRoute ⟨"A", 0, 0⟩ ⟨"B", 1, 1⟩ "car" 200
      (Except.error "provider down")).1.status = "estimated" := by
    have h1n : ¬ (200 : ℚ) ≤ 120 := by norm_num
    have h2 : (200 : ℚ) ≤ 300 := by norm_num
    simp [calculateIntelligentRoute, h1n, h2, estimatedInfo]
  rw [h]
  decide

/-- C10 (amended): the route calculator is total, always yields status
`success`, `estimated` or `basic` with numeric distance and time fields; a
provider failure at or below the 120 band is converted into the `basic`
result with time distance/50 (rounded) and the error message attached, while
a provider failure in the 120-300 band falls back to estimation. -/
theorem C10_totality_and_fallback :
    ∀ (s e : Loc) (vehicle : String) (d : ℚ)
      (provider : Except String (List PRoute)),
      ((calculateIntelligentRoute s e vehicle d provider).1.status =
          "success" ∨
       (calculateIntelligentRoute s e vehicle d provider).1.status =
          "estimated" ∨
       (calculateIntelligentRoute s e vehicle d provider).1.status =
          "basic") ∧
      (∀ msg, provider = .error msg → d ≤ 120 →
        (calculateIntelligentRoute s e vehicle d provider).1 =
          basicInfo d msg) ∧
      (∀ msg, provider = .error msg → 120 < d → d ≤ 300 →
        (calculateIntelligentRoute s e vehicle d provider).1 =
          estimatedInfo s e vehicle d) := by
  intro s e vehicle d provider
  refine ⟨calcIR_status s e vehicle d provider, ?_, ?_⟩
  · intro msg hp h1
    subst hp
    simp [calculateIntelligentRoute, h1]
  · intro msg hp h1 h2
    subst hp
    simp [calculateIntelligentRoute, not_le.mpr h1, h2]

/-- C10 witness: provider failures below and inside the fallback band. -/
theorem C10_witness :
    (calculateIntelligentRoute ⟨"A", 0, 0⟩ ⟨"B", 1, 1⟩ "car" 100
        (Except.error "boom")).1 = basicInfo 100 "boom" ∧
    (calculateIntelligentRoute ⟨"A", 0, 0⟩ ⟨"B", 1, 1⟩ "car" 200
        (Except.error "boom")).1 =
      estimatedInfo ⟨"A", 0, 0⟩ ⟨"B", 1, 1⟩ "car" 200 :=
  ⟨(C10_totality_and_fallback ⟨"A", 0, 0⟩ ⟨"B", 1, 1⟩ "car" 100
      (Except.error "boom")).2.1 "boom" rfl (by norm_num),
   (C10_totality_and_fallback ⟨"A", 0, 0⟩ ⟨"B", 1, 1⟩ "car" 200
      (Except.error "boom")).2.2 "boom" rfl (by norm_num) (by norm_num)⟩

/-- C1: for both single-flight coordinators (the event-based one shared by
the route and photo policies, with or without the durable-tier write, and the
lock-based one of the daily-pool policy), any run that starts with no valid
cache entry, in which the compute succeeds and every one of the K callers
finished, has invoked the compute exactly once and returned the same value to
all K callers. -/
theorem C1_single_flight_collapse :
    (∀ (K : Nat) (V : Type) (v : V) (useFb : Bool) (s : SF.St K V),
      SF.Reach useFb false v (SF.init K V) s → 0 < K →
      (∀ i, ∃ w, s.pcs i = SF.Pc.done w) →
      s.count = 1 ∧ ∀ i, s.pcs i = SF.Pc.done v) ∧
    (∀ (K : Nat) (V : Type) (v : V) (s : PL.St K V),
      PL.Reach false v (PL.init K V) s → 0 < K →
      (∀ i, ∃ w, s.pcs i = PL.Pc.done w) →
      s.count = 1 ∧ ∀ i, s.pcs i = PL.Pc.done v) :=
  ⟨fun _ _ _ _ _ hr hK hdone => SF.sf_collapse hr hK hdone,
   fun _ _ _ _ hr hK hdone => PL.pl_collapse hr hK hdone⟩

/-- C1 witness: concrete two-caller success runs of both coordinators. -/
theorem C1_witness :
    (sfW4.count = 1 ∧ ∀ i, sfW4.pcs i = SF.Pc.done 7) ∧
    (plW4.count = 1 ∧ ∀ i, plW4.pcs i = PL.Pc.done 7) := by
  have st1 : SF.Step true false 7 (0 : Fin 2) (SF.init 2 Nat) sfW1 :=
    SF.Step.startRegister _ rfl rfl rfl rfl
  have st2 : SF.Step true false 7 (1 : Fin 2) sfW1 sfW2 :=
    SF.Step.startWait _ 0 rfl rfl
  have st3 : SF.Step true false 7 (0 : Fin 2) sfW2 sfW3 :=
    SF.Step.finishOk _ 0 rfl rfl
  have st4 : SF.Step true false 7 (1 : Fin 2) sfW3 sfW4 :=
    SF.Step.wakeMemHit _ 0 7 rfl rfl rfl
  have hrs : SF.Reach true false 7 (SF.init 2 Nat) sfW4 :=
    SF.Reach.tail _ _ _ 1
      (SF.Reach.tail _ _ _ 0
        (SF.Reach.tail _ _ _ 1
          (SF.Reach.tail _ _ _ 0 (SF.Reach.refl _) st1) st2) st3) st4
  have tt1 : PL.Step false 7 (0 : Fin 2) (PL.init 2 Nat) plW1 :=
    PL.Step.startRegister _ rfl rfl rfl rfl
  have tt2 : PL.Step false 7 (1 : Fin 2) plW1 plW2 :=
    PL.Step.startBlocked _ rfl rfl rfl
  have tt3 : PL.Step false 7 (0 : Fin 2) plW2 plW3 :=
    PL.Step.finishOk _ rfl
  have tt4 : PL.Step false 7 (1 : Fin 2) plW3 plW4 :=
    PL.Step.blockedHit _ 7 rfl rfl rfl
  have hrp : PL.Reach false 7 (PL.init 2 Nat) plW4 :=
    PL.Reach.tail _ _ _ 1
      (PL.Reach.tail _ _ _ 0
        (PL.Reach.tail _ _ _ 1
          (PL.Reach.tail _ _ _ 0 (PL.Reach.refl _) tt1) tt2) tt3) tt4
  refine ⟨C1_single_flight_collapse.1 2 Nat 7 true sfW4 hrs (by decide)
      (fun i => ⟨7, ?_⟩),
    C1_single_flight_collapse.2 2 Nat 7 plW4 hrp (by decide)
      (fun i => ⟨7, ?_⟩)⟩
  · fin_cases i <;> rfl
  · fin_cases i <;> rfl

/-- C2 counterexample: a run of the event-based coordinator (as used by the
photo-search policy) in which a compute failure is followed by two woken
waiters re-registering, the second overwriting the first's dictionary entry;
after the first of them succeeds and caches the value, the still-running
second computation fails — and afterwards the fast tier does hold an entry
for the key, contradicting the claim that a compute failure leaves no cache
entry (a subsequent call would also be served from cache rather than
re-invoking compute). -/
theorem C2_counterexample :
    SF.Reach false true 7 (SF.init 3 Nat) sfC7 ∧
    sfC7.pcs 2 = SF.Pc.computing ∧
    SF.Step false true 7 2 sfC7 (SF.finishFailOrphanResult sfC7 2) ∧
    (SF.finishFailOrphanResult sfC7 2).mem = some 7 := by
  have st1 : SF.Step false true 7 (0 : Fin 3) (SF.init 3 Nat) sfC1 :=
    SF.Step.startRegister _ rfl rfl rfl rfl
  have st2 : SF.Step false true 7 (1 : Fin 3) sfC1 sfC2 :=
    SF.Step.startWait _ 0 rfl rfl
  have st3 : SF.Step false true 7 (2 : Fin 3) sfC2 sfC3 :=
    SF.Step.startWait _ 0 rfl rfl
  have st4 : SF.Step false true 7 (0 : Fin 3) sfC3 sfC4 :=
    SF.Step.finishFail _ 0 rfl rfl rfl
  have st5 : SF.Step false true 7 (1 : Fin 3) sfC4 sfC5 :=
    SF.Step.wakeRegister _ 0 rfl rfl rfl rfl
  have st6 : SF.Step false true 7 (2 : Fin 3) sfC5 sfC6 :=
    SF.Step.wakeRegister _ 0 rfl rfl rfl rfl
  have st7 : SF.Step false true 7 (1 : Fin 3) sfC6 sfC7 :=
    SF.Step.finishOk _ 2 rfl rfl
  refine ⟨?_, rfl, SF.Step.finishFailOrphan _ rfl rfl rfl, rfl⟩
  exact SF.Reach.tail _ _ _ 1
    (SF.Reach.tail _ _ _ 2
      (SF.Reach.tail _ _ _ 1
        (SF.Reach.tail _ _ _ 0
          (SF.Reach.tail _ _ _ 2
            (SF.Reach.tail _ _ _ 1
              (SF.Reach.tail _ _ _ 0 (SF.Reach.refl _) st1) st2) st3)
          st4) st5) st6) st7

/-- C2 (amended): if the compute for a key fails while it is the only
computation that has been in flight for that key (no earlier failure for the
key), then afterwards neither tier holds an entry for the key, the in-flight
registration is gone, and a caller arriving at the policy entry can only
re-register, invoking the compute again. -/
theorem C2_failure_cleanup :
    ∀ (K : Nat) (V : Type) (useFb : Bool) (v : V) (s : SF.St K V) (i : Fin K)
      (g : Nat),
      SF.Reach useFb false v (SF.init K V) s →
      s.pcs i = SF.Pc.computing → s.dict = some g →
      (SF.finishFailResult s i g).mem = none ∧
      (SF.finishFailResult s i g).fb = none ∧
      (SF.finishFailResult s i g).dict = none ∧
      (∀ j, (SF.finishFailResult s i g).pcs j = SF.Pc.start →
        SF.Step useFb true v j (SF.finishFailResult s i g)
          (SF.registerResult (SF.finishFailResult s i g) j) ∧
        ∀ u, SF.Step useFb true v j (SF.finishFailResult s i g) u →
          u.count = s.count + 1) := by
  intro K V useFb v s i g hr hpc hd
  have h := SF.invS_reach hr
  obtain ⟨hm, hf, hd0, hc⟩ := h.comp_state i hpc
  refine ⟨hm, hf, rfl, ?_⟩
  intro j hj
  constructor
  · exact SF.Step.startRegister _ hj rfl hm hf
  · intro u hu
    cases hu with
    | startWait g2 hpc2 hd2 => exact Option.noConfusion hd2
    | startMemHit w hpc2 hd2 hm2 =>
      have hm3 : s.mem = some w := hm2
      rw [hm] at hm3
      exact Option.noConfusion hm3
    | startFbHit w hpc2 hd2 hm2 hf2 =>
      have hf3 : s.fb = some w := hf2
      rw [hf] at hf3
      exact Option.noConfusion hf3
    | startRegister hpc2 hd2 hm2 hf2 => rfl
    | wakeMemHit g2 w hpc2 hev2 hm2 =>
      rw [hj] at hpc2
      exact SF.Pc.noConfusion hpc2
    | wakeFbHit g2 w hpc2 hev2 hm2 hf2 =>
      rw [hj] at hpc2
      exact SF.Pc.noConfusion hpc2
    | wakeRegister g2 hpc2 hev2 hm2 hf2 =>
      rw [hj] at hpc2
      exact SF.Pc.noConfusion hpc2
    | finishOk g2 hpc2 hd2 =>
      rw [hj] at hpc2
      exact SF.Pc.noConfusion hpc2
    | finishOkOrphan hpc2 hd2 =>
      rw [hj] at hpc2
      exact SF.Pc.noConfusion hpc2
    | finishFail g2 hpc2 hd2 hall =>
      rw [hj] at hpc2
      exact SF.Pc.noConfusion hpc2
    | finishFailOrphan hpc2 hd2 hall =>
      rw [hj] at hpc2
      exact SF.Pc.noConfusion hpc2

/-- C2 witness: the first (only) in-flight computation fails in a concrete
two-caller run; the cleanup facts hold and the caller still at the entry can
re-register. -/
theorem C2_witness :
    (SF.finishFailResult sfF1 0 0).mem = none ∧
    (SF.finishFailResult sfF1 0 0).fb = none ∧
    (SF.finishFailResult sfF1 0 0).dict = none ∧
    SF.Step false true 7 1 (SF.finishFailResult sfF1 0 0)
      (SF.registerResult (SF.finishFailResult sfF1 0 0) 1) := by
  have hr : SF.Reach false false 7 (SF.init 2 Nat) sfF1 :=
    SF.Reach.tail _ _ _ 0 (SF.Reach.refl _)
      (SF.Step.startRegister _ rfl rfl rfl rfl)
  obtain ⟨h1, h2, h3, h4⟩ :=
    C2_failure_cleanup 2 Nat false 7 sfF1 0 0 hr rfl rfl
  exact ⟨h1, h2, h3, (h4 1 rfl).1⟩

end Raahi
